import Mathlib

/-!
# LaOpen pixel effects: transient-marker lifecycle

A shallow embedding of `static/js/main.js` and `static/js/mobile.js`.

* The DOM is a forest of elements (first-child / next-sibling encoding);
  an element reference is the element's `id`.
* The timer queue (`setTimeout` / `setInterval`) and the listener table are
  explicit components of the state `World`.
* Every callback of the two scripts is a Lean function on `World`.
-/

namespace LaOpen

/-! ## DOM -/

/-- An element: identity, tag name, class list and `style.animation`. -/
structure Elem where
  id : Nat
  tag : String
  classes : List String
  animation : String
deriving DecidableEq, Repr

/-- A list of sibling subtrees: `cons e kids sibs` is the element `e` with
children `kids`, followed by its next siblings `sibs`. -/
inductive Forest where
  | nil : Forest
  | cons (e : Elem) (kids : Forest) (sibs : Forest) : Forest
deriving DecidableEq, Repr

namespace Forest

/-- Concatenation of two sibling lists. -/
def append : Forest → Forest → Forest
  | nil, g => g
  | cons e k s, g => cons e k (append s g)

/-- Ids of all elements, in document (pre-) order. -/
def ids : Forest → List Nat
  | nil => []
  | cons e k s => e.id :: (ids k ++ ids s)

/-- Whether an element with id `x` occurs in the forest. -/
def hasId (x : Nat) : Forest → Bool
  | nil => false
  | cons e k s => e.id == x || hasId x k || hasId x s

/-- Whether `x` occurs strictly below a root, that is, has an element parent. -/
def isChild (x : Nat) : Forest → Bool
  | nil => false
  | cons _ k s => hasId x k || isChild x s

/-- The first subtree (document order) whose root has id `x`, as a one-root
forest; `nil` when there is none. -/
def find (x : Nat) : Forest → Forest
  | nil => nil
  | cons e k s =>
    if e.id = x then cons e k nil
    else match find x k with
      | nil => find x s
      | t => t

/-- The first subtree rooted at `x` that lies strictly below a root. -/
def findChild (x : Nat) : Forest → Forest
  | nil => nil
  | cons _ k s =>
    match find x k with
    | nil => findChild x s
    | t => t

/-- Remove the subtrees rooted at `x`. -/
def erase (x : Nat) : Forest → Forest
  | nil => nil
  | cons e k s => if e.id = x then erase x s else cons e (erase x k) (erase x s)

/-- Remove the subtrees rooted at `x` that lie strictly below a root. -/
def eraseChild (x : Nat) : Forest → Forest
  | nil => nil
  | cons e k s => cons e (erase x k) (eraseChild x s)

/-- Append `new` as last children of the first element with id `p`. -/
def insertKids (p : Nat) : Forest → Forest → Forest
  | nil, _ => nil
  | cons e k s, new =>
    if e.id = p then cons e (append k new) s
    else if hasId p k then cons e (insertKids p k new) s
    else cons e k (insertKids p s new)

/-- The ids matched by the selector `.cls`, in document order
(`querySelectorAll`). -/
def selectAll (cls : String) : Forest → List Nat
  | nil => []
  | cons e k s =>
    (if cls ∈ e.classes then [e.id] else []) ++ (selectAll cls k ++ selectAll cls s)

/-- Set `style.animation` of every element with id `x`. -/
def setAnimation (x : Nat) (a : String) : Forest → Forest
  | nil => nil
  | cons e k s =>
    cons (if e.id = x then { e with animation := a } else e)
      (setAnimation x a k) (setAnimation x a s)

/-- Add a class to every element with id `x` (`classList.add`). -/
def addClass (x : Nat) (c : String) : Forest → Forest
  | nil => nil
  | cons e k s =>
    cons (if e.id = x ∧ c ∉ e.classes then { e with classes := e.classes ++ [c] } else e)
      (addClass x c k) (addClass x c s)

/-- The first element with the given tag among the roots of a sibling list. -/
def firstTag (t : String) : Forest → Option Nat
  | nil => none
  | cons e _ s => if e.tag = t then some e.id else firstTag t s

end Forest

/-! ## Document -/

/-- The DOM state: `doc` holds the children of the Document node, `detached`
the roots of the trees that are not in the document. -/
structure Dom where
  doc : Forest
  detached : Forest
deriving DecidableEq, Repr

namespace Dom

/-- Truthiness of `x.parentNode`: `x` is in the document (a root of `doc` has
the Document node as parent) or below a root of a detached tree. -/
def hasParent (x : Nat) (d : Dom) : Bool :=
  d.doc.hasId x || d.detached.isChild x

/-- The call `x.parentNode.removeChild(x)`: `x` and its subtree leave their
parent and become a detached root. -/
def removeChild (x : Nat) (d : Dom) : Dom :=
  if d.doc.hasId x then
    { doc := d.doc.erase x, detached := d.detached.append (d.doc.find x) }
  else
    { doc := d.doc, detached := (d.detached.eraseChild x).append (d.detached.findChild x) }

/-- The removal block `if (x.parentNode) { x.parentNode.removeChild(x); }`
of the pixel, key-flash, mouse-trail and touch-ripple timers. -/
def removeIfAttached (x : Nat) (d : Dom) : Dom :=
  if d.hasParent x then d.removeChild x else d

/-- The call `x.remove()`, which does nothing when `x` has no parent. -/
def remove (x : Nat) (d : Dom) : Dom :=
  if d.hasParent x then d.removeChild x else d

/-- The call `p.appendChild(n)` for a freshly created element `n` (one that
has no parent yet), which is how both scripts call it. -/
def appendChild (p : Nat) (n : Forest) (d : Dom) : Dom :=
  if d.doc.hasId p then { d with doc := d.doc.insertKids p n }
  else { d with detached := d.detached.insertKids p n }

/-- The call `document.querySelectorAll('.cls')`. -/
def querySelectorAll (cls : String) (d : Dom) : List Nat :=
  d.doc.selectAll cls

/-- The call `document.querySelector('.cls')`; `none` is `null`. -/
def querySelector (cls : String) (d : Dom) : Option Nat :=
  (d.doc.selectAll cls).head?

/-- The child of the `html` root element with the given tag. -/
def rootChild (t : String) (d : Dom) : Option Nat :=
  match d.doc with
  | .cons e k _ => if e.tag = "html" then k.firstTag t else none
  | .nil => none

/-- The property `document.head`; `none` is `null`. -/
def head (d : Dom) : Option Nat := d.rootChild "head"

/-- The property `document.body`; `none` is `null`. -/
def body (d : Dom) : Option Nat := d.rootChild "body"

end Dom

/-! ## Timers, listeners and the state of a page -/

/-- The exceptions the two scripts can raise. -/
inductive JSError where
  | typeError
deriving DecidableEq, Repr

/-- The timer callbacks of the two scripts, with the variables each closure
captures. -/
inductive Callback where
  /-- The `setInterval` arrow function of `createRandomPixels`. -/
  | pixelTick (isMobile : Bool) (container : Option Nat)
  /-- The arrow function `if (x.parentNode) x.parentNode.removeChild(x)`. -/
  | removeNode (x : Nat)
  /-- The outer flash-message timeout: start the fade-out of `message`. -/
  | flashOut (message : Nat)
  /-- The inner flash-message timeout: `message.remove()`. -/
  | flashRemove (message : Nat)
  /-- The timeout of the `orientationchange` listener. -/
  | orientationSettle
deriving DecidableEq, Repr

/-- A pending timer; `period` is `some p` for `setInterval`. -/
structure Timer where
  id : Nat
  due : Nat
  period : Option Nat
  cb : Callback
deriving DecidableEq, Repr

/-- The listener functions of the two scripts. -/
inductive Handler where
  | mainReady
  | mobileReady
  | keyFlash
  | mouseTrail
  | touchRipple
  | btnTouchStart
  | btnTouchEnd
  | btnTouchCancel
  | docTouchEnd
  | enableAudio
  | btnClick
  | orientationChange
deriving DecidableEq, Repr

/-- An event target. -/
inductive Target where
  | document
  | window
  | element (id : Nat)
deriving DecidableEq, Repr

/-- One `addEventListener` registration. `passive` is `none` when the call
gives no `passive` option. -/
structure Listener where
  target : Target
  type : String
  handler : Handler
  passive : Option Bool
  once : Bool
deriving DecidableEq, Repr

/-- An event as the handlers see it: its type, its propagation path (target
first), the property `e.key` (`none` when the event carries no key, so that
`e.key` is `undefined`), the touch points `e.touches` (empty when there is no
first touch point), and the value `(new Date()).getTime()` returns while it
is handled. -/
structure Event where
  type : String
  path : List Target
  key : Option String
  touches : List (Int × Int)
  date : Nat
deriving DecidableEq, Repr

/-- The object `navigator`: `connection` is `none` when `navigator.connection`
is undefined, `some none` when it has no `effectiveType`. -/
structure Navigator where
  userAgent : String
  connection : Option (Option String)
deriving DecidableEq, Repr

/-- The state of a page. -/
structure World where
  now : Nat
  dom : Dom
  nextId : Nat
  nextTimer : Nat
  timers : List Timer
  listeners : List Listener
  innerWidth : Nat
  navigator : Navigator
  lastTouchEnd : Nat
  audioEnabled : Bool
deriving DecidableEq, Repr

/-- What running a piece of script did: the new state, the exception that
ended it (if any), and whether it called `event.preventDefault()`. -/
structure Outcome where
  world : World
  error : Option JSError
  prevented : Bool
deriving DecidableEq, Repr

namespace World

/-- The call `setTimeout(cb, delay)`. -/
def setTimeout (cb : Callback) (delay : Nat) (w : World) : World :=
  { w with
    timers := w.timers ++ [⟨w.nextTimer, w.now + delay, none, cb⟩]
    nextTimer := w.nextTimer + 1 }

/-- The call `setInterval(cb, period)`. -/
def setInterval (cb : Callback) (period : Nat) (w : World) : World :=
  { w with
    timers := w.timers ++ [⟨w.nextTimer, w.now + period, some period, cb⟩]
    nextTimer := w.nextTimer + 1 }

/-- The call `target.addEventListener(type, handler, options)`. -/
def addListener (l : Listener) (w : World) : World :=
  { w with listeners := w.listeners ++ [l] }

/-- The element `document.createElement(tag)` returns, with the class name
and `style.animation` the script then gives it. -/
def newElem (tag : String) (classes : List String) (animation : String) (w : World) : Forest :=
  .cons ⟨w.nextId, tag, classes, animation⟩ .nil .nil

/-- The number of live ambient pixels,
`document.querySelectorAll('.random-pixel').length`. -/
def pixelCount (w : World) : Nat :=
  (w.dom.querySelectorAll "random-pixel").length

end World

/-! ## main.js -/

/-- The population cap `isMobile ? 10 : 20` of the ambient spawner
(main.js 13). -/
def maxPixels (isMobile : Bool) : Nat := if isMobile then 10 else 20

/-- The `setInterval` callback of `createRandomPixels` (main.js 12-35), with
the captured `isMobile` and `container`. The random `left`, animation timing
and colour go to the style of the new element only. `container.appendChild`
raises a `TypeError` when `container` is `null`. -/
def pixelTick (isMobile : Bool) (container : Option Nat) (w : World) : Outcome :=
  if w.pixelCount < maxPixels isMobile then
    let pixel := w.newElem "div" ["pixel", "random-pixel"] ""
    let w1 := { w with nextId := w.nextId + 1 }
    match container with
    | none => ⟨w1, some .typeError, false⟩
    | some c =>
      let w2 := { w1 with dom := w1.dom.appendChild c pixel }
      ⟨w2.setTimeout (.removeNode w.nextId) 15000, none, false⟩
  else ⟨w, none, false⟩

/-- The function `createRandomPixels` (main.js 9-36). -/
def createRandomPixels (isMobile : Bool) (w : World) : World :=
  let container := w.dom.querySelector "floating-pixels"
  w.setInterval (.pixelTick isMobile container) 1000

/-- The body shared by the three one-shot effects: create a `div` with the
given animation, append it to `document.body`, schedule its removal. -/
def spawnOnBody (animation : String) (ttl : Nat) (w : World) : Outcome :=
  let el := w.newElem "div" [] animation
  let w1 := { w with nextId := w.nextId + 1 }
  match w1.dom.body with
  | none => ⟨w1, some .typeError, false⟩
  | some b =>
    let w2 := { w1 with dom := w1.dom.appendChild b el }
    ⟨w2.setTimeout (.removeNode w.nextId) ttl, none, false⟩

/-- The `keydown` listener (main.js 39-62). The element is created on line
41; `e.key.toUpperCase()` on line 52 raises a `TypeError` when `e.key` is
`undefined`, before the element is appended (line 55) and before its removal
is scheduled (line 57). -/
def keyFlash (e : Event) (w : World) : Outcome :=
  match e.key with
  | none => ⟨{ w with nextId := w.nextId + 1 }, some .typeError, false⟩
  | some _ => spawnOnBody "keyPress 0.5s ease-out forwards" 500 w

/-- The `mousemove` listener (main.js 66-88). -/
def mouseTrail (w : World) : Outcome :=
  spawnOnBody "mouseFade 1s ease-out forwards" 1000 w

/-- The function `createTouchEffect` (main.js 151-172). -/
def createTouchEffect (w : World) : Outcome :=
  spawnOnBody "touchFade 0.8s ease-out forwards" 800 w

/-- The `touchstart` listener (main.js 146-149): `e.touches[0]` is
`undefined` for an empty touch list, and reading `clientX` of it throws. -/
def touchRipple (e : Event) (w : World) : Outcome :=
  match e.touches with
  | [] => ⟨w, some .typeError, false⟩
  | _ :: _ => createTouchEffect w

/-- The `DOMContentLoaded` listener of main.js (lines 3-111). The block
opened by `if (!isMobile)` on line 65 closes on line 110. -/
def mainReady (w : World) : Outcome :=
  let isMobile := decide (w.innerWidth ≤ 768)
  let w1 := w.addListener ⟨.document, "keydown", .keyFlash, none, false⟩
  if !isMobile then
    let w2 := w1.addListener ⟨.document, "mousemove", .mouseTrail, none, false⟩
    ⟨createRandomPixels isMobile w2, none, false⟩
  else ⟨w1, none, false⟩

/-- Create a `style` element and append it to `document.head`. -/
def appendStyle (w : World) : Outcome :=
  let st := w.newElem "style" [] ""
  let w1 := { w with nextId := w.nextId + 1 }
  match w1.dom.head with
  | none => ⟨w1, some .typeError, false⟩
  | some h => ⟨{ w1 with dom := w1.dom.appendChild h st }, none, false⟩

/-- The top level of main.js: register the `DOMContentLoaded` listener,
append the key-frame style, then the block of line 144. -/
def mainScript (w : World) : Outcome :=
  let w1 := w.addListener ⟨.document, "DOMContentLoaded", .mainReady, none, false⟩
  let r := appendStyle w1
  match r.error with
  | some err => ⟨r.world, some err, false⟩
  | none =>
    if r.world.innerWidth ≤ 768 then
      appendStyle (r.world.addListener ⟨.document, "touchstart", .touchRipple, some true, false⟩)
    else r

/-! ## mobile.js -/

/-- The callback `mobileButtons.forEach(button => ...)` of lines 8-26. -/
def addButtonTouchListeners : List Nat → World → World
  | [], w => w
  | b :: bs, w =>
    addButtonTouchListeners bs
      (((w.addListener ⟨.element b, "touchstart", .btnTouchStart, none, false⟩).addListener
        ⟨.element b, "touchend", .btnTouchEnd, none, false⟩).addListener
        ⟨.element b, "touchcancel", .btnTouchCancel, none, false⟩)

/-- The callback `mobileButtons.forEach(button => ...)` of lines 118-128. -/
def addButtonClickListeners : List Nat → World → World
  | [], w => w
  | b :: bs, w =>
    addButtonClickListeners bs (w.addListener ⟨.element b, "click", .btnClick, none, false⟩)

/-- The loop `flashMessages.forEach((message, index) => ...)` of lines 40-47,
from index `index` on. -/
def scheduleFlash : List Nat → Nat → World → World
  | [], _, w => w
  | message :: rest, index, w =>
    scheduleFlash rest (index + 1) (w.setTimeout (.flashOut message) (3000 + index * 500))

/-- The outer flash timeout (lines 41-46): start the fade-out animation and
schedule the removal 300 ms later. -/
def flashOut (message : Nat) (w : World) : Outcome :=
  let a := "mobileFlashOut 0.3s ease-in forwards"
  let w1 := { w with dom := ⟨w.dom.doc.setAnimation message a, w.dom.detached.setAnimation message a⟩ }
  ⟨w1.setTimeout (.flashRemove message) 300, none, false⟩

/-- The inner flash timeout (lines 43-45): `message.remove()`. -/
def flashRemove (message : Nat) (w : World) : Outcome :=
  ⟨{ w with dom := w.dom.remove message }, none, false⟩

/-- The removal timeout of the four spawners of main.js. -/
def removeNode (x : Nat) (w : World) : Outcome :=
  ⟨{ w with dom := w.dom.removeIfAttached x }, none, false⟩

/-- The document `touchend` listener (lines 30-36); `now - lastTouchEnd` is
a signed difference. -/
def docTouchEnd (e : Event) (w : World) : Outcome :=
  let now := e.date
  ⟨{ w with lastTouchEnd := now }, none, decide ((now : Int) - (w.lastTouchEnd : Int) ≤ 300)⟩

/-- The listener `enableAudio` (lines 113-116). -/
def enableAudio (w : World) : Outcome :=
  ⟨{ w with
      audioEnabled := true
      listeners := w.listeners.filter
        (fun l => !(l.target == Target.document && l.type == "touchstart" && l.handler == Handler.enableAudio)) },
    none, false⟩

/-- The button `click` listener (lines 119-127): the sound is played inside
`try`/`catch` and touches neither the document nor the timers. -/
def btnClick (w : World) : Outcome := ⟨w, none, false⟩

/-- The button touch listeners (lines 10-25): they set `transform` and
`transition` of the button. -/
def btnTouch (w : World) : Outcome := ⟨w, none, false⟩

/-- The `orientationchange` listener (lines 132-141). -/
def orientationChange (w : World) : Outcome :=
  ⟨w.setTimeout .orientationSettle 100, none, false⟩

/-- The timeout of the `orientationchange` listener: writing
`document.body.style.height` throws when there is no body; the `resize`
event it dispatches has no listener in the two scripts. -/
def orientationSettle (w : World) : Outcome :=
  match w.dom.body with
  | none => ⟨w, some .typeError, false⟩
  | some _ => ⟨w, none, false⟩

/-! ## The low-performance predicate -/

/-- The JavaScript values `isLowPerformanceDevice` handles. -/
inductive JSVal where
  | undefined
  | bool (b : Bool)
  | str (s : String)
  /-- The object `navigator.connection`, with its `effectiveType` if any. -/
  | connection (effectiveType : Option String)
deriving DecidableEq, Repr

/-- JavaScript truthiness. -/
def JSVal.truthy : JSVal → Bool
  | .undefined => false
  | .bool b => b
  | .str s => s != ""
  | .connection _ => true

/-- One position of a regular expression without repetition: a literal
character or a character range. -/
inductive Atom where
  | lit (c : Char)
  | range (lo hi : Char)
deriving DecidableEq, Repr

/-- Whether the atom accepts the character. -/
def Atom.accepts : Atom → Char → Bool
  | .lit c, x => x == c
  | .range lo hi, x => decide (lo.toNat ≤ x.toNat) && decide (x.toNat ≤ hi.toNat)

/-- Whether the pattern matches a prefix of the text. -/
def matchesAt : List Atom → List Char → Bool
  | [], _ => true
  | _ :: _, [] => false
  | a :: as, c :: cs => a.accepts c && matchesAt as cs

/-- The call `pattern.test(text)`: the pattern matches somewhere. -/
def regexTest (p : List Atom) : List Char → Bool
  | [] => matchesAt p []
  | c :: cs => matchesAt p (c :: cs) || regexTest p cs

/-- The literal atoms of a string. -/
def lits (s : String) : List Atom := s.data.map Atom.lit

/-- The pattern `/android [1-4]\./`. -/
def oldAndroidPattern : List Atom := lits "android " ++ [.range '1' '4', .lit '.']

/-- The pattern `/os [1-9]_/`. -/
def oldIOSPattern : List Atom := lits "os " ++ [.range '1' '9', .lit '_']

/-- The method `toLowerCase`, as it acts on the letters `A`-`Z`. The two
patterns tested on its result are made of ASCII characters; the only other
characters whose lower-case form contains an ASCII character are U+212A
(giving `k`, which is in neither pattern) and U+0130 (giving `i` followed by
U+0307, which no pattern continues), so both tests give the same result on
this function as on the full Unicode mapping. -/
def toLowerCase (s : List Char) : List Char := s.map Char.toLower

/-- The expression `navigator.connection`. -/
def getConnection (n : Navigator) : JSVal :=
  match n.connection with
  | none => .undefined
  | some c => .connection c

/-- The property read `v.effectiveType`, which throws on `undefined`. -/
def getEffectiveType : JSVal → Except JSError JSVal
  | .undefined => .error .typeError
  | .connection (some s) => .ok (.str s)
  | .connection none => .ok .undefined
  | .bool _ => .ok .undefined
  | .str _ => .ok .undefined

/-- The call `v.includes('2g')`, which throws unless `v` is a string. -/
def includes2g : JSVal → Except JSError JSVal
  | .str s => .ok (.bool (regexTest (lits "2g") s.data))
  | _ => .error .typeError

/-- The expression `navigator.connection && navigator.connection.effectiveType
&& navigator.connection.effectiveType.includes('2g')` (lines 71-72). -/
def isSlowConnection (n : Navigator) : Except JSError JSVal :=
  let c := getConnection n
  if !c.truthy then .ok c
  else
    match getEffectiveType (getConnection n) with
    | .error err => .error err
    | .ok t =>
      if !t.truthy then .ok t
      else
        match getEffectiveType (getConnection n) with
        | .error err => .error err
        | .ok t2 => includes2g t2

/-- The function `isLowPerformanceDevice` (lines 66-75). -/
def isLowPerformanceDevice (n : Navigator) : Except JSError JSVal :=
  let userAgent := toLowerCase n.userAgent.data
  let isOldAndroid := regexTest oldAndroidPattern userAgent
  let isOldIOS := regexTest oldIOSPattern userAgent
  match isSlowConnection n with
  | .error err => .error err
  | .ok slow =>
    .ok (if isOldAndroid then .bool true else if isOldIOS then .bool true else slow)

/-! ## mobile.js, continued -/

/-- The block `if (isLowPerformanceDevice()) {...}` of lines 78-89. -/
def lowPerformanceBlock (w : World) : Outcome :=
  match isLowPerformanceDevice w.navigator with
  | .error err => ⟨w, some err, false⟩
  | .ok v =>
    if v.truthy then
      match w.dom.body with
      | none => ⟨w, some .typeError, false⟩
      | some b =>
        appendStyle { w with dom := { w.dom with doc := w.dom.doc.addClass b "low-performance" } }
    else ⟨w, none, false⟩

/-- The `DOMContentLoaded` listener of mobile.js (lines 3-129). -/
def mobileReady (w : World) : Outcome :=
  let mobileButtons := w.dom.querySelectorAll "mobile-btn"
  let w1 := addButtonTouchListeners mobileButtons w
  let w2 := { w1 with lastTouchEnd := 0 }.addListener
    ⟨.document, "touchend", .docTouchEnd, none, false⟩
  let flashMessages := w2.dom.querySelectorAll "mobile-flash-message"
  let w3 := scheduleFlash flashMessages 0 w2
  let r := appendStyle w3
  match r.error with
  | some err => ⟨r.world, some err, false⟩
  | none =>
    let r2 := lowPerformanceBlock r.world
    match r2.error with
    | some err => ⟨r2.world, some err, false⟩
    | none =>
      let w4 := { r2.world with audioEnabled := false }.addListener
        ⟨.document, "touchstart", .enableAudio, none, true⟩
      ⟨addButtonClickListeners mobileButtons w4, none, false⟩

/-- The top level of mobile.js. -/
def mobileScript (w : World) : Outcome :=
  ⟨(w.addListener ⟨.document, "DOMContentLoaded", .mobileReady, none, false⟩).addListener
    ⟨.window, "orientationchange", .orientationChange, none, false⟩, none, false⟩

/-! ## Running timers and events -/

/-- Run a timer callback. -/
def runCallback : Callback → World → Outcome
  | .pixelTick isMobile container, w => pixelTick isMobile container w
  | .removeNode x, w => removeNode x w
  | .flashOut m, w => flashOut m w
  | .flashRemove m, w => flashRemove m w
  | .orientationSettle, w => orientationSettle w

/-- Fire a pending timer: a timeout leaves the queue, an interval stays with
its next due time; the clock is at the due time or later. -/
def fireTimer (t : Timer) (w : World) : Outcome :=
  let timers := match t.period with
    | none => w.timers.erase t
    | some p => w.timers.replace t { t with due := t.due + p }
  runCallback t.cb { w with now := max w.now t.due, timers := timers }

/-- Run a listener function on an event. -/
def runHandler : Handler → Event → World → Outcome
  | .mainReady, _, w => mainReady w
  | .mobileReady, _, w => mobileReady w
  | .keyFlash, e, w => keyFlash e w
  | .mouseTrail, _, w => mouseTrail w
  | .touchRipple, e, w => touchRipple e w
  | .btnTouchStart, _, w => btnTouch w
  | .btnTouchEnd, _, w => btnTouch w
  | .btnTouchCancel, _, w => btnTouch w
  | .docTouchEnd, e, w => docTouchEnd e w
  | .enableAudio, _, w => enableAudio w
  | .btnClick, _, w => btnClick w
  | .orientationChange, _, w => orientationChange w

/-- The listeners an event reaches: along its path, in registration order. -/
def listenersFor (e : Event) (w : World) : List Listener :=
  (e.path.map (fun tgt => w.listeners.filter (fun l => l.target == tgt && l.type == e.type))).flatten

/-- Invoke the listeners in turn. An exception in one does not stop the
others; `prevented` records whether one of them called `preventDefault`. -/
def invokeAll : List Listener → Event → Outcome → Outcome
  | [], _, r => r
  | l :: ls, e, r =>
    let w1 := if l.once then { r.world with listeners := r.world.listeners.erase l } else r.world
    let r1 := runHandler l.handler e w1
    invokeAll ls e ⟨r1.world, r.error <|> r1.error, r.prevented || r1.prevented⟩

/-- Dispatch an event. -/
def dispatch (e : Event) (w : World) : Outcome :=
  invokeAll (listenersFor e w) e ⟨w, none, false⟩

/-! ## The low-performance predicate: what the specification says -/

/-- The low-performance condition in the words of the specification: the
lower-cased user agent contains `android d.` for a digit `d` in 1..4, or
`os d_` for a digit `d` in 1..9, or the connection and its `effectiveType`
are present and the latter contains `2g`. -/
def specLowPerformance (n : Navigator) : Prop :=
  (∃ d ∈ ['1', '2', '3', '4'],
      ("android ".data ++ [d, '.']) <:+: toLowerCase n.userAgent.data) ∨
  (∃ d ∈ ['1', '2', '3', '4', '5', '6', '7', '8', '9'],
      ("os ".data ++ [d, '_']) <:+: toLowerCase n.userAgent.data) ∨
  (∃ s, n.connection = some (some s) ∧ "2g".data <:+: s.data)

/-! ## Sample pages -/

/-- A page with a head, a pixel container, two buttons and three flash
messages. -/
def sampleDoc : Forest :=
  .cons ⟨0, "html", [], ""⟩
    (.cons ⟨1, "head", [], ""⟩ .nil
      (.cons ⟨2, "body", [], ""⟩
        (.cons ⟨3, "div", ["floating-pixels"], ""⟩ .nil
          (.cons ⟨4, "div", ["mobile-flash-message"], ""⟩ .nil
            (.cons ⟨5, "div", ["mobile-flash-message"], ""⟩ .nil
              (.cons ⟨6, "div", ["mobile-flash-message"], ""⟩ .nil
                (.cons ⟨7, "button", ["mobile-btn"], ""⟩ .nil
                  (.cons ⟨8, "button", ["mobile-btn"], ""⟩ .nil .nil))))))
        .nil))
    .nil

/-- A page without a pixel container. -/
def bareDoc : Forest :=
  .cons ⟨0, "html", [], ""⟩
    (.cons ⟨1, "head", [], ""⟩ .nil (.cons ⟨2, "body", [], ""⟩ .nil .nil))
    .nil

/-- A freshly loaded page showing `doc` in a viewport of the given width. -/
def freshPage (doc : Forest) (width : Nat) : World :=
  { now := 0
    dom := ⟨doc, .nil⟩
    nextId := 100
    nextTimer := 0
    timers := []
    listeners := []
    innerWidth := width
    navigator := ⟨"Mozilla/5.0 (X11; Linux x86_64)", none⟩
    lastTouchEnd := 0
    audioEnabled := false }

/-- The ambient interval timer `createRandomPixels` installs. -/
def ambientTimer (id due : Nat) (isMobile : Bool) (container : Option Nat) : Timer :=
  ⟨id, due, some 1000, .pixelTick isMobile container⟩

/-! ## Page load and registrations -/

/-- Whether a listener running `h` is registered. -/
def registered (h : Handler) (w : World) : Bool :=
  w.listeners.any (fun l => l.handler == h)

/-- The `DOMContentLoaded` event. -/
def domContentLoaded : Event := ⟨"DOMContentLoaded", [.document, .window], none, [], 0⟩

/-- The viewport takes a new width. -/
def resize (width : Nat) (w : World) : World := { w with innerWidth := width }

/-- Loading main.js: the script body runs while the viewport is `atScript`
wide, and `DOMContentLoaded` fires while it is `atReady` wide. -/
def loadMain (atScript atReady : Nat) (w : World) : World :=
  (dispatch domContentLoaded (resize atReady (mainScript (resize atScript w)).world)).world

/-- The listeners the first button loop of mobile.js registers. -/
def buttonTouchListeners : List Nat → List Listener
  | [] => []
  | b :: bs =>
    [⟨.element b, "touchstart", .btnTouchStart, none, false⟩,
     ⟨.element b, "touchend", .btnTouchEnd, none, false⟩,
     ⟨.element b, "touchcancel", .btnTouchCancel, none, false⟩] ++ buttonTouchListeners bs

/-- The listeners the second button loop of mobile.js registers. -/
def buttonClickListeners : List Nat → List Listener
  | [] => []
  | b :: bs => ⟨.element b, "click", .btnClick, none, false⟩ :: buttonClickListeners bs

/-- The timers the flash-message loop creates for the messages from index
`index` on, the first with timer id `tid`, at load time `now`. -/
def flashTimers : List Nat → Nat → Nat → Nat → List Timer
  | [], _, _, _ => []
  | message :: rest, index, tid, now =>
    ⟨tid, now + (3000 + index * 500), none, .flashOut message⟩ ::
      flashTimers rest (index + 1) (tid + 1) now

/-- The script `f` only adds listeners, and each one it adds satisfies `P`. -/
def Registers (f : World → Outcome) (P : Listener → Prop) : Prop :=
  ∀ w, ∃ added, (f w).world.listeners = w.listeners ++ added ∧ ∀ l ∈ added, P l

/-- The listener is the touch-ripple listener of main.js, registered with
`passive: true`, or it is another listener, registered without a `passive`
option. -/
def PassiveOnlyRipple (l : Listener) : Prop :=
  (l.handler = .touchRipple ∧ l.passive = some true) ∨
  (l.handler ≠ .touchRipple ∧ l.passive = none)

/-- A `touchend` event on the document, handled at wall-clock time `date`. -/
def touchEndAt (date : Nat) : Event :=
  ⟨"touchend", [.document, .window], none, [], date⟩

/-- A `keydown` event on the document for the key `k`. -/
def keyDownOf (k : String) : Event := ⟨"keydown", [.document, .window], some k, [], 0⟩

/-- A `keydown` event on the document that carries no key. -/
def keyDownNoKey : Event := ⟨"keydown", [.document, .window], none, [], 0⟩

/-- One thing that happens on a loaded page: a listener function runs on an
event, or a pending timer fires. -/
inductive Step where
  | handle (h : Handler) (e : Event)
  | fire (t : Timer)
deriving DecidableEq, Repr

/-- Run one step. -/
def Step.run : Step → World → Outcome
  | .handle h e, w => runHandler h e w
  | .fire t, w => fireTimer t w

/-- Run the steps in turn and record, for each, whether `preventDefault` was
called. -/
def runSteps : List Step → World → List Bool
  | [], _ => []
  | s :: rest, w => (s.run w).prevented :: runSteps rest (s.run w).world

/-- The wall-clock time of the event when the step is a run of the document
`touchend` listener. -/
def Step.touchEndDate : Step → Option Nat
  | .handle .docTouchEnd e => some e.date
  | _ => none

/-- The double-tap rule in the words of the amended claim: a step calls
`preventDefault` exactly when it is a run of the document `touchend`
listener at most 300 ms (signed difference) after the previous one, `prev`
being the time of the previous `touchend`. -/
def expectedPrevented : Nat → List Step → List Bool
  | _, [] => []
  | prev, s :: rest =>
    match s.touchEndDate with
    | some d => decide ((d : Int) - (prev : Int) ≤ 300) :: expectedPrevented d rest
    | none => false :: expectedPrevented prev rest

/-- The step is not a run of the `DOMContentLoaded` listener of mobile.js
(which runs once, at load). -/
def Step.afterLoad : Step → Bool
  | .handle .mobileReady _ => false
  | _ => true


/-- Loading mobile.js: the script body runs, then `DOMContentLoaded` fires. -/
def loadMobile (w : World) : World :=
  (dispatch domContentLoaded (mobileScript w).world).world

/-! ## Runs of the timer queue -/

/-- One step of the page: some pending timer fires. -/
def Fires (w w1 : World) : Prop :=
  ∃ t ∈ w.timers, w1 = (fireTimer t w).world

/-- One step of the page under exact timers: a pending timer with the least
due time fires (any of them, when several are due at the same instant). -/
def IdealFires (w w1 : World) : Prop :=
  ∃ t ∈ w.timers, (∀ u ∈ w.timers, t.due ≤ u.due) ∧ w1 = (fireTimer t w).world

/-- Every pending ambient tick was created with `isMobile = m`. -/
def TicksAgree (m : Bool) (w : World) : Prop :=
  ∀ t ∈ w.timers, ∀ m1 c, t.cb = .pixelTick m1 c → m1 = m

/-! ## Marker kinds and the TTL table of the specification -/

/-- The values of `style.animation` of the elements with id `x`. -/
def Forest.animationsOf (x : Nat) : Forest → List String
  | .nil => []
  | .cons e k s =>
    (if e.id = x then [e.animation] else []) ++ (animationsOf x k ++ animationsOf x s)

/-- The kinds of transient marker of the specification. -/
inductive MarkerKind where
  | ambientPixel
  | keyFlash
  | mouseTrail
  | touchRipple
  | flashMessage
deriving DecidableEq, Repr

/-- The table `ttlMillis` in the words of the specification; `index` is the
position of a flash message. -/
def specTtlMillis : MarkerKind → Nat → Nat
  | .ambientPixel, _ => 15000
  | .keyFlash, _ => 500
  | .mouseTrail, _ => 1000
  | .touchRipple, _ => 800
  | .flashMessage, index => 3000 + index * 500

/-- The sample page after mobile.js has loaded and the first flash timer
(due at 3000 ms) has fired. -/
def sampleAt3000 : World :=
  (fireTimer ⟨0, 3000, none, .flashOut 4⟩ (loadMobile (freshPage sampleDoc 375))).world

/-! ## The shape of the desktop ambient run -/

/-- The sibling list of ambient pixels with the given ids. -/
def pixelRow : List Nat → Forest
  | [] => .nil
  | x :: xs => .cons ⟨x, "div", ["pixel", "random-pixel"], ""⟩ .nil (pixelRow xs)

/-- The removal timer the `j`-th tick (counted from 0) creates, on a page
whose interval was installed at time `t0` with timer id `tid0` when the next
element id was `n0`. -/
def removalTimer (t0 n0 tid0 j : Nat) : Timer :=
  ⟨tid0 + 1 + j, t0 + 1000 * (j + 1) + 15000, none, .removeNode (n0 + j)⟩

/-- The interval timer of the desktop ambient run, due for tick number
`k + 1`. -/
def tickTimer (c t0 tid0 k : Nat) : Timer :=
  ⟨tid0, t0 + 1000 * (k + 1), some 1000, .pixelTick false (some c)⟩

/-- The state of the desktop ambient run after `lo + n` ticks and `lo`
removals: the `n` youngest pixels are the last children of the container,
their removals are pending, and the interval is due for its next tick. -/
def AmbientAt (doc0 : Forest) (c t0 n0 tid0 lo n : Nat) (w : World) : Prop :=
  w.timers = tickTimer c t0 tid0 (lo + n) ::
      (List.range' lo n).map (removalTimer t0 n0 tid0) ∧
    w.dom.doc = doc0.insertKids c (pixelRow ((List.range' lo n).map (fun j => n0 + j))) ∧
    w.nextId = n0 + (lo + n) ∧
    w.nextTimer = tid0 + 1 + (lo + n) ∧
    w.now ≤ t0 + 1000 * (lo + n + 1) ∧
    (0 < n → w.now ≤ t0 + 1000 * (lo + 1) + 15000)

/-- The invariant of the desktop ambient run: at most 16 pixels are live. -/
def AmbientInv (doc0 : Forest) (c t0 n0 tid0 : Nat) (w : World) : Prop :=
  ∃ lo n, n ≤ 16 ∧ AmbientAt doc0 c t0 n0 tid0 lo n w

/-! ## Lemmas on pattern matching -/

theorem matchesAt_lit_append (l : List Char) (rest : List Atom) (s : List Char) :
    matchesAt (l.map Atom.lit ++ rest) s = true ↔ ∃ t, s = l ++ t ∧ matchesAt rest t = true := by
  induction l generalizing s with
  | nil => simp
  | cons c l ih =>
    cases s with
    | nil => simp [matchesAt]
    | cons x xs =>
      have hstep : matchesAt ((c :: l).map Atom.lit ++ rest) (x :: xs)
          = ((x == c) && matchesAt (l.map Atom.lit ++ rest) xs) := rfl
      rw [hstep, Bool.and_eq_true, ih, beq_iff_eq]
      constructor
      · rintro ⟨rfl, t, rfl, ht⟩
        exact ⟨t, rfl, ht⟩
      · rintro ⟨t, ht, hm⟩
        simp only [List.cons_append, List.cons.injEq] at ht
        exact ⟨ht.1, t, ht.2, hm⟩

theorem regexTest_iff (p : List Atom) (s : List Char) :
    regexTest p s = true ↔ ∃ pre t, s = pre ++ t ∧ matchesAt p t = true := by
  induction s with
  | nil =>
    simp only [regexTest]
    constructor
    · intro h
      exact ⟨[], [], rfl, h⟩
    · rintro ⟨pre, t, h, hm⟩
      have : t = [] := by
        cases pre <;> simp_all
      simpa [this] using hm
  | cons c cs ih =>
    simp only [regexTest, Bool.or_eq_true, ih]
    constructor
    · rintro (h | ⟨pre, t, rfl, hm⟩)
      · exact ⟨[], c :: cs, rfl, h⟩
      · exact ⟨c :: pre, t, rfl, hm⟩
    · rintro ⟨pre, t, h, hm⟩
      cases pre with
      | nil =>
        left
        simp only [List.nil_append] at h
        rw [h]
        exact hm
      | cons x pre =>
        right
        simp only [List.cons_append, List.cons.injEq] at h
        exact ⟨pre, t, h.2, hm⟩

theorem regexTest_lits_iff (l s : List Char) :
    regexTest (l.map Atom.lit) s = true ↔ l <:+: s := by
  rw [regexTest_iff]
  constructor
  · rintro ⟨pre, t, rfl, hm⟩
    have h := (matchesAt_lit_append l [] t).1 (by simpa using hm)
    obtain ⟨u, rfl, -⟩ := h
    exact ⟨pre, u, by simp⟩
  · rintro ⟨pre, post, rfl⟩
    refine ⟨pre, l ++ post, by simp, ?_⟩
    have := (matchesAt_lit_append l [] (l ++ post)).2 ⟨post, rfl, by simp [matchesAt]⟩
    simpa using this

theorem char_of_toNat {d : Char} {k : Nat} (h : d.toNat = k) : d = Char.ofNat k := by
  rw [← h, Char.ofNat_toNat]

theorem digit_range_iff (d : Char) (hi : Nat) (hhi : hi ≤ 57) :
    (('1' : Char).toNat ≤ d.toNat ∧ d.toNat ≤ hi) ↔
      ∃ k, 1 ≤ k ∧ k + 48 ≤ hi ∧ d = Char.ofNat (k + 48) := by
  constructor
  · rintro ⟨h1, h2⟩
    have h1' : 49 ≤ d.toNat := h1
    refine ⟨d.toNat - 48, by omega, by omega, ?_⟩
    apply char_of_toNat
    omega
  · rintro ⟨k, hk1, hk2, rfl⟩
    have hk : k + 48 ≤ 57 := le_trans hk2 hhi
    have hk9 : k ≤ 9 := by omega
    have : (Char.ofNat (k + 48)).toNat = k + 48 := by
      interval_cases k <;> rfl
    rw [this]
    exact ⟨by show 49 ≤ k + 48; omega, hk2⟩

theorem regexTest_digit_iff (l : List Char) (hi c : Char) (s : List Char) :
    regexTest (l.map Atom.lit ++ [.range '1' hi, .lit c]) s = true ↔
      ∃ d, (('1' : Char).toNat ≤ d.toNat ∧ d.toNat ≤ hi.toNat) ∧ (l ++ [d, c]) <:+: s := by
  rw [regexTest_iff]
  constructor
  · rintro ⟨pre, t, rfl, hm⟩
    obtain ⟨u, rfl, hu⟩ := (matchesAt_lit_append l _ t).1 hm
    match u, hu with
    | d :: x :: rest, hu =>
      simp only [matchesAt, Atom.accepts, Bool.and_eq_true, decide_eq_true_eq, beq_iff_eq,
        and_true] at hu
      obtain ⟨hd, rfl⟩ := hu
      exact ⟨d, hd, pre, rest, by simp⟩
    | [_], hu => simp [matchesAt] at hu
    | [], hu => simp [matchesAt] at hu
  · rintro ⟨d, hd, pre, post, rfl⟩
    refine ⟨pre, l ++ [d, c] ++ post, by simp, ?_⟩
    have := (matchesAt_lit_append l [.range '1' hi, .lit c] (l ++ [d, c] ++ post)).2
      ⟨[d, c] ++ post, by simp, by
        have h1 : 49 ≤ d.toNat := hd.1
        simp [matchesAt, Atom.accepts, h1, hd.2]⟩
    exact this

theorem oldAndroid_iff (s : List Char) :
    regexTest oldAndroidPattern s = true ↔
      ∃ d ∈ ['1', '2', '3', '4'], ("android ".data ++ [d, '.']) <:+: s := by
  show regexTest ("android ".data.map Atom.lit ++ [.range '1' '4', .lit '.']) s = true ↔ _
  rw [regexTest_digit_iff]
  constructor
  · rintro ⟨d, hd, hin⟩
    refine ⟨d, ?_, hin⟩
    obtain ⟨k, hk1, hk2, rfl⟩ := (digit_range_iff d 52 (by omega)).1 hd
    have hk4 : k ≤ 4 := by omega
    interval_cases k <;> decide
  · rintro ⟨d, hd, hin⟩
    refine ⟨d, ?_, hin⟩
    simp only [List.mem_cons, List.mem_singleton, List.not_mem_nil, or_false] at hd
    rcases hd with rfl | rfl | rfl | rfl <;> decide

theorem oldIOS_iff (s : List Char) :
    regexTest oldIOSPattern s = true ↔
      ∃ d ∈ ['1', '2', '3', '4', '5', '6', '7', '8', '9'], ("os ".data ++ [d, '_']) <:+: s := by
  show regexTest ("os ".data.map Atom.lit ++ [.range '1' '9', .lit '_']) s = true ↔ _
  rw [regexTest_digit_iff]
  constructor
  · rintro ⟨d, hd, hin⟩
    refine ⟨d, ?_, hin⟩
    obtain ⟨k, hk1, hk2, rfl⟩ := (digit_range_iff d 57 (by omega)).1 hd
    have hk9 : k ≤ 9 := by omega
    interval_cases k <;> decide
  · rintro ⟨d, hd, hin⟩
    refine ⟨d, ?_, hin⟩
    simp only [List.mem_cons, List.mem_singleton, List.not_mem_nil, or_false] at hd
    rcases hd with rfl | rfl | rfl | rfl | rfl | rfl | rfl | rfl | rfl <;> decide

/-- The value of the slow-connection expression in each of the three
network-capability states. -/
theorem isSlowConnection_eq (n : Navigator) :
    isSlowConnection n =
      match n.connection with
      | none => .ok .undefined
      | some none => .ok .undefined
      | some (some s) =>
        if s = "" then .ok (.str "") else .ok (.bool (regexTest (lits "2g") s.data)) := by
  rcases n with ⟨ua, _ | _ | s⟩
  · rfl
  · rfl
  · by_cases hs : s = ""
    · subst hs
      rfl
    · simp [isSlowConnection, getConnection, getEffectiveType, includes2g, JSVal.truthy, hs]

theorem isSlowConnection_truthy (n : Navigator) :
    ∃ v, isSlowConnection n = .ok v ∧
      (v.truthy = true ↔ ∃ s, n.connection = some (some s) ∧ "2g".data <:+: s.data) := by
  rw [isSlowConnection_eq]
  rcases n with ⟨ua, _ | _ | s⟩
  · exact ⟨_, rfl, by simp [JSVal.truthy]⟩
  · exact ⟨_, rfl, by simp [JSVal.truthy]⟩
  · by_cases hs : s = ""
    · subst hs
      refine ⟨_, rfl, ?_⟩
      simp only [JSVal.truthy, bne_self_eq_false, Bool.false_eq_true, Option.some.injEq,
        exists_eq_left', false_iff]
      rintro ⟨a, b, h⟩
      have hlen := congrArg List.length h
      simp at hlen
    · refine ⟨.bool (regexTest (lits "2g") s.data), by simp [hs], ?_⟩
      simp only [JSVal.truthy, Option.some.injEq, exists_eq_left']
      exact regexTest_lits_iff _ _

/-! ## C9: the low-performance predicate -/

/-- C9: for every user agent and every network-capability state,
`isLowPerformanceDevice` returns normally, and its value is truthy exactly
when the lower-cased user agent contains `android d.` (d in 1..4) or `os d_`
(d in 1..9) or the connection reports an `effectiveType` containing `2g`; it
is `true` for every user agent containing `android 4.` in any letter case,
whatever the network state; and an absent `navigator.connection` makes the
slow-connection signal `undefined` (falsy). -/
theorem isLowPerformanceDevice_correct (n : Navigator) :
    (∃ v, isLowPerformanceDevice n = .ok v ∧ (v.truthy = true ↔ specLowPerformance n)) ∧
    (∀ pre v post, n.userAgent.data = pre ++ v ++ post →
        toLowerCase v = "android 4.".data →
        isLowPerformanceDevice n = .ok (.bool true)) ∧
    (n.connection = none →
        isSlowConnection n = .ok .undefined ∧ JSVal.truthy .undefined = false) := by
  obtain ⟨sv, hsv, hst⟩ := isSlowConnection_truthy n
  refine ⟨?_, ?_, ?_⟩
  · unfold isLowPerformanceDevice specLowPerformance
    simp only [hsv]
    cases ha : regexTest oldAndroidPattern (toLowerCase n.userAgent.data) with
    | true =>
      refine ⟨_, rfl, ?_⟩
      simp only [if_true, JSVal.truthy, true_iff]
      exact Or.inl ((oldAndroid_iff _).1 ha)
    | false =>
      cases hi : regexTest oldIOSPattern (toLowerCase n.userAgent.data) with
      | true =>
        refine ⟨_, rfl, ?_⟩
        simp only [if_true, Bool.false_eq_true, if_false, JSVal.truthy, true_iff]
        exact Or.inr (Or.inl ((oldIOS_iff _).1 hi))
      | false =>
        refine ⟨_, rfl, ?_⟩
        simp only [Bool.false_eq_true, if_false]
        rw [hst]
        constructor
        · intro h
          exact Or.inr (Or.inr h)
        · rintro (h | h | h)
          · rw [(oldAndroid_iff _).2 h] at ha
            exact absurd ha (by decide)
          · rw [(oldIOS_iff _).2 h] at hi
            exact absurd hi (by decide)
          · exact h
  · intro pre v post hua hv
    have ha : regexTest oldAndroidPattern (toLowerCase n.userAgent.data) = true := by
      rw [oldAndroid_iff]
      refine ⟨'4', by decide, toLowerCase pre, toLowerCase post, ?_⟩
      rw [hua]
      simp only [toLowerCase, List.map_append] at hv ⊢
      rw [hv]
      rfl
    unfold isLowPerformanceDevice
    simp only [hsv, ha, if_true]
  · intro hc
    rw [isSlowConnection_eq, hc]
    exact ⟨rfl, rfl⟩

/-- C9 at a concrete device: an Android 4.4 user agent, written in upper
case, without `navigator.connection`. -/
theorem isLowPerformanceDevice_correct_witness :
    isLowPerformanceDevice ⟨"Linux; ANDROID 4.4", none⟩ = .ok (.bool true) ∧
    isSlowConnection ⟨"Linux; ANDROID 4.4", none⟩ = .ok .undefined :=
  ⟨(isLowPerformanceDevice_correct ⟨"Linux; ANDROID 4.4", none⟩).2.1
      "Linux; ".data "ANDROID 4.".data "4".data (by decide) (by decide),
    ((isLowPerformanceDevice_correct ⟨"Linux; ANDROID 4.4", none⟩).2.2 rfl).1⟩

/-! ## C5: the ambient spawner and the display class -/

/-- C5 (evaluation at the failing input): on a 375 px wide viewport the
`DOMContentLoaded` listener of main.js returns normally but installs no
timer at all, so no ambient pixel is ever created; on a 1024 px wide
viewport it installs the 1000 ms interval, whose first tick appends one
pixel (element 100) to the container (element 3). -/
theorem mainReady_mobile_installs_no_interval :
    (mainReady (freshPage sampleDoc 375)).error = none ∧
    (mainReady (freshPage sampleDoc 375)).world.timers = [] ∧
    (mainReady (freshPage sampleDoc 1024)).world.timers = [ambientTimer 0 1000 false (some 3)] ∧
    (fireTimer (ambientTimer 0 1000 false (some 3))
      (mainReady (freshPage sampleDoc 1024)).world).world.pixelCount = 1 ∧
    ((fireTimer (ambientTimer 0 1000 false (some 3))
      (mainReady (freshPage sampleDoc 1024)).world).world.dom.doc.find 3).selectAll "random-pixel"
        = [100] := by
  refine ⟨rfl, rfl, rfl, ?_, ?_⟩ <;> decide

/-! ## C6: a missing container -/

/-- C6 (counterexample): on a desktop page without a `.floating-pixels`
element the interval is installed with a `null` container, and its first
tick ends in a `TypeError`. -/
theorem pixelTick_missing_container_throws :
    (freshPage bareDoc 1024).dom.querySelector "floating-pixels" = none ∧
    (mainReady (freshPage bareDoc 1024)).world.timers = [ambientTimer 0 1000 false none] ∧
    (fireTimer (ambientTimer 0 1000 false none)
      (mainReady (freshPage bareDoc 1024)).world).error = some .typeError := by
  refine ⟨rfl, rfl, ?_⟩
  decide

/-- C6 (amended): when the container lookup returns `null`, the interval
`createRandomPixels` installs carries a `null` container, and each of its
ticks, in whatever state it runs, leaves the DOM and the timer queue
unchanged; the tick returns normally when the live pixel count has reached
the cap and ends in a `TypeError` when it is below the cap. -/
theorem pixelTick_missing_container (isMobile : Bool) (w : World)
    (h : w.dom.querySelector "floating-pixels" = none) :
    (createRandomPixels isMobile w).timers =
      w.timers ++ [ambientTimer w.nextTimer (w.now + 1000) isMobile none] ∧
    ∀ w1 : World,
      (pixelTick isMobile none w1).world.dom = w1.dom ∧
      (pixelTick isMobile none w1).world.timers = w1.timers ∧
      (maxPixels isMobile ≤ w1.pixelCount → (pixelTick isMobile none w1).error = none) ∧
      (w1.pixelCount < maxPixels isMobile →
        (pixelTick isMobile none w1).error = some .typeError) := by
  refine ⟨?_, ?_⟩
  · simp [createRandomPixels, h, World.setInterval, ambientTimer]
  · intro w1
    unfold pixelTick
    by_cases hc : w1.pixelCount < maxPixels isMobile
    · simp [hc]
    · simp [hc]

/-- C6 (amended) on the page without a container: a desktop tick there
keeps the document and throws. -/
theorem pixelTick_missing_container_witness :
    (pixelTick false none (freshPage bareDoc 1024)).world.dom = (freshPage bareDoc 1024).dom ∧
    (pixelTick false none (freshPage bareDoc 1024)).error = some .typeError :=
  ⟨((pixelTick_missing_container false (freshPage bareDoc 1024) rfl).2 _).1,
    ((pixelTick_missing_container false (freshPage bareDoc 1024) rfl).2 _).2.2.2 (by decide)⟩

/-! ## Lemmas on registration -/

theorem addButtonTouchListeners_eq (bs : List Nat) (w : World) :
    addButtonTouchListeners bs w =
      { w with listeners := w.listeners ++ buttonTouchListeners bs } := by
  induction bs generalizing w with
  | nil => simp [addButtonTouchListeners, buttonTouchListeners]
  | cons b bs ih =>
    simp [addButtonTouchListeners, buttonTouchListeners, ih, World.addListener]

theorem addButtonClickListeners_eq (bs : List Nat) (w : World) :
    addButtonClickListeners bs w =
      { w with listeners := w.listeners ++ buttonClickListeners bs } := by
  induction bs generalizing w with
  | nil => simp [addButtonClickListeners, buttonClickListeners]
  | cons b bs ih =>
    simp [addButtonClickListeners, buttonClickListeners, ih, World.addListener]

theorem scheduleFlash_eq (ms : List Nat) (index : Nat) (w : World) :
    scheduleFlash ms index w =
      { w with
        timers := w.timers ++ flashTimers ms index w.nextTimer w.now
        nextTimer := w.nextTimer + ms.length } := by
  induction ms generalizing index w with
  | nil => simp [scheduleFlash, flashTimers]
  | cons m ms ih =>
    simp [scheduleFlash, flashTimers, ih, World.setTimeout]
    omega

theorem appendStyle_listeners (w : World) :
    (appendStyle w).world.listeners = w.listeners ∧
    (appendStyle w).world.timers = w.timers ∧
    (appendStyle w).world.now = w.now ∧
    (appendStyle w).world.nextTimer = w.nextTimer := by
  unfold appendStyle
  cases h : w.dom.head <;> simp [h]

theorem lowPerformanceBlock_listeners (w : World) :
    (lowPerformanceBlock w).world.listeners = w.listeners ∧
    (lowPerformanceBlock w).world.timers = w.timers ∧
    (lowPerformanceBlock w).world.now = w.now ∧
    (lowPerformanceBlock w).world.nextTimer = w.nextTimer := by
  unfold lowPerformanceBlock
  cases isLowPerformanceDevice w.navigator with
  | error err => simp
  | ok v =>
    by_cases hv : v.truthy = true
    · cases hb : w.dom.body with
      | none => simp [hv]
      | some b =>
        simp only [hv, if_true]
        exact appendStyle_listeners _
    · simp [hv]

theorem buttonTouchListeners_mem (bs : List Nat) (l : Listener)
    (h : l ∈ buttonTouchListeners bs) :
    l.passive = none ∧
      (l.handler = .btnTouchStart ∨ l.handler = .btnTouchEnd ∨ l.handler = .btnTouchCancel) := by
  induction bs with
  | nil => simp [buttonTouchListeners] at h
  | cons b bs ih =>
    simp only [buttonTouchListeners, List.cons_append, List.nil_append, List.mem_cons] at h
    rcases h with rfl | rfl | rfl | h
    · simp
    · simp
    · simp
    · exact ih h

theorem buttonClickListeners_mem (bs : List Nat) (l : Listener)
    (h : l ∈ buttonClickListeners bs) : l.passive = none ∧ l.handler = .btnClick := by
  induction bs with
  | nil => simp [buttonClickListeners] at h
  | cons b bs ih =>
    simp only [buttonClickListeners, List.mem_cons] at h
    rcases h with rfl | h
    · simp
    · exact ih h

/-- The timers and listeners `mobileReady` leaves behind, whether or not it
ends in an exception. -/
theorem mobileReady_shape (w : World) :
    (mobileReady w).world.timers =
      w.timers ++ flashTimers (w.dom.querySelectorAll "mobile-flash-message") 0 w.nextTimer w.now ∧
    ∃ added, (mobileReady w).world.listeners = w.listeners ++ added ∧
      ∀ l ∈ added, l.passive = none ∧
        (l.handler = .btnTouchStart ∨ l.handler = .btnTouchEnd ∨ l.handler = .btnTouchCancel ∨
          l.handler = .docTouchEnd ∨ l.handler = .enableAudio ∨ l.handler = .btnClick) := by
  unfold mobileReady
  simp only [addButtonTouchListeners_eq, scheduleFlash_eq, addButtonClickListeners_eq,
    World.addListener]
  generalize hw3 : ({ w with
      listeners := w.listeners ++ buttonTouchListeners (w.dom.querySelectorAll "mobile-btn") ++
        [⟨.document, "touchend", .docTouchEnd, none, false⟩]
      lastTouchEnd := 0
      timers := w.timers ++
        flashTimers (w.dom.querySelectorAll "mobile-flash-message") 0 w.nextTimer w.now
      nextTimer := w.nextTimer + (w.dom.querySelectorAll "mobile-flash-message").length } : World)
    = w3
  have h1 := appendStyle_listeners w3
  have h2 := lowPerformanceBlock_listeners (appendStyle w3).world
  have hl3 : w3.listeners = w.listeners ++
      (buttonTouchListeners (w.dom.querySelectorAll "mobile-btn") ++
        [⟨.document, "touchend", .docTouchEnd, none, false⟩]) := by
    rw [← hw3]
    simp
  have ht3 : w3.timers = w.timers ++
      flashTimers (w.dom.querySelectorAll "mobile-flash-message") 0 w.nextTimer w.now := by
    rw [← hw3]
  have hmem : ∀ l ∈ buttonTouchListeners (w.dom.querySelectorAll "mobile-btn") ++
        [(⟨.document, "touchend", .docTouchEnd, none, false⟩ : Listener)],
      l.passive = none ∧
        (l.handler = .btnTouchStart ∨ l.handler = .btnTouchEnd ∨ l.handler = .btnTouchCancel ∨
          l.handler = .docTouchEnd ∨ l.handler = .enableAudio ∨ l.handler = .btnClick) := by
    intro l hl
    rcases List.mem_append.1 hl with h | h
    · obtain ⟨hp, hh⟩ := buttonTouchListeners_mem _ l h
      refine ⟨hp, ?_⟩
      rcases hh with hh | hh | hh <;> simp [hh]
    · simp only [List.mem_singleton] at h
      subst h
      simp
  cases he1 : (appendStyle w3).error with
  | some err =>
    simp only []
    exact ⟨by rw [h1.2.1, ht3], _, by rw [h1.1, hl3], hmem⟩
  | none =>
    cases he2 : (lowPerformanceBlock (appendStyle w3).world).error with
    | some err =>
      simp only []
      exact ⟨by rw [h2.2.1, h1.2.1, ht3], _, by rw [h2.1, h1.1, hl3], hmem⟩
    | none =>
      simp only []
      refine ⟨by rw [h2.2.1, h1.2.1, ht3], _, by rw [h2.1, h1.1, hl3, List.append_assoc,
        List.append_assoc], ?_⟩
      intro l hl
      rcases List.mem_append.1 hl with h | h
      · exact hmem l h
      · rcases List.mem_append.1 h with h | h
        · simp only [List.mem_singleton] at h
          subst h
          simp
        · obtain ⟨hp, hh⟩ := buttonClickListeners_mem _ l h
          exact ⟨hp, by simp [hh]⟩

theorem spawnOnBody_listeners (a : String) (ttl : Nat) (w : World) :
    (spawnOnBody a ttl w).world.listeners = w.listeners ∧
    (spawnOnBody a ttl w).prevented = false := by
  unfold spawnOnBody
  cases h : w.dom.body <;> simp [h, World.setTimeout]

theorem mainReady_listeners (w : World) :
    (mainReady w).world.listeners =
      w.listeners ++ [⟨.document, "keydown", .keyFlash, none, false⟩] ++
        (if w.innerWidth ≤ 768 then []
          else [⟨.document, "mousemove", .mouseTrail, none, false⟩]) ∧
    (mainReady w).prevented = false ∧ (mainReady w).error = none := by
  unfold mainReady
  by_cases h : w.innerWidth ≤ 768
  · simp [h, World.addListener]
  · simp [h, World.addListener, createRandomPixels, World.setInterval]

theorem appendStyle_error (w : World) :
    (appendStyle w).error = (if w.dom.head.isSome then none else some .typeError) ∧
    (appendStyle w).world.innerWidth = w.innerWidth ∧
    (appendStyle w).prevented = false := by
  unfold appendStyle
  cases h : w.dom.head <;> simp [h]

theorem mainScript_listeners (w : World) :
    (mainScript w).world.listeners =
      w.listeners ++ [⟨.document, "DOMContentLoaded", .mainReady, none, false⟩] ++
        (if w.innerWidth ≤ 768 ∧ w.dom.head.isSome then
          [⟨.document, "touchstart", .touchRipple, some true, false⟩]
          else []) ∧
    (mainScript w).world.innerWidth = w.innerWidth := by
  unfold mainScript
  generalize hw1 : w.addListener ⟨.document, "DOMContentLoaded", .mainReady, none, false⟩ = w1
  have hl1 : w1.listeners =
      w.listeners ++ [⟨.document, "DOMContentLoaded", .mainReady, none, false⟩] := by
    rw [← hw1]; rfl
  have hi1 : w1.innerWidth = w.innerWidth := by rw [← hw1]; rfl
  have hd1 : w1.dom = w.dom := by rw [← hw1]; rfl
  have h1 := appendStyle_listeners w1
  have e1 := appendStyle_error w1
  rw [hd1] at e1
  cases hh : w.dom.head with
  | none =>
    rw [hh] at e1
    simp only [Option.isSome_none, Bool.false_eq_true, if_false] at e1
    simp only [e1.1, h1.1, hl1, e1.2.1, hi1, Option.isSome_none, Bool.false_eq_true, and_false,
      if_false, List.append_nil, and_self]
  | some x =>
    rw [hh] at e1
    simp only [Option.isSome_some, if_true] at e1
    simp only [e1.1, e1.2.1, hi1, Option.isSome_some, and_true]
    by_cases h : w.innerWidth ≤ 768
    · simp only [h, if_true]
      have h2 := appendStyle_listeners
        ((appendStyle w1).world.addListener ⟨.document, "touchstart", .touchRipple, some true, false⟩)
      have e2 := appendStyle_error
        ((appendStyle w1).world.addListener ⟨.document, "touchstart", .touchRipple, some true, false⟩)
      refine ⟨?_, ?_⟩
      · rw [h2.1]
        simp only [World.addListener, h1.1, hl1]
      · rw [e2.2.1]
        simp only [World.addListener, e1.2.1, hi1]
    · simp only [h, if_false, h1.1, hl1, e1.2.1, hi1, List.append_nil, and_self]

theorem loadMain_listeners (a b : Nat) (w : World) (hl : w.listeners = []) :
    (loadMain a b w).listeners =
      [⟨.document, "DOMContentLoaded", .mainReady, none, false⟩] ++
        (if a ≤ 768 ∧ w.dom.head.isSome then
          [⟨.document, "touchstart", .touchRipple, some true, false⟩]
          else []) ++
        [⟨.document, "keydown", .keyFlash, none, false⟩] ++
        (if b ≤ 768 then [] else [⟨.document, "mousemove", .mouseTrail, none, false⟩]) := by
  unfold loadMain dispatch
  obtain ⟨h1, -⟩ := mainScript_listeners (resize a w)
  generalize hw1 : resize b (mainScript (resize a w)).world = w1
  have hl1 : w1.listeners = [⟨.document, "DOMContentLoaded", .mainReady, none, false⟩] ++
      (if a ≤ 768 ∧ w.dom.head.isSome then
        [⟨.document, "touchstart", .touchRipple, some true, false⟩] else []) := by
    rw [← hw1]
    show (mainScript (resize a w)).world.listeners = _
    rw [h1]
    simp [resize, hl]
  have hi1 : w1.innerWidth = b := by rw [← hw1]; rfl
  have hfor : listenersFor domContentLoaded w1 =
      [⟨.document, "DOMContentLoaded", .mainReady, none, false⟩] := by
    unfold listenersFor
    rw [hl1]
    by_cases hc : a ≤ 768 ∧ w.dom.head.isSome
    · rw [if_pos hc]; decide
    · rw [if_neg hc]; decide
  rw [hfor]
  simp only [invokeAll, runHandler, Bool.false_eq_true, if_false]
  rw [(mainReady_listeners w1).1, hl1, hi1]

theorem pixelTick_listeners (m : Bool) (c : Option Nat) (w : World) :
    (pixelTick m c w).world.listeners = w.listeners ∧ (pixelTick m c w).prevented = false := by
  unfold pixelTick
  by_cases h : w.pixelCount < maxPixels m
  · cases c <;> simp [h, World.setTimeout]
  · simp [h]

theorem runCallback_listeners (cb : Callback) (w : World) :
    (runCallback cb w).world.listeners = w.listeners ∧ (runCallback cb w).prevented = false := by
  cases cb with
  | pixelTick m c => exact pixelTick_listeners m c w
  | removeNode x => simp [runCallback, removeNode]
  | flashOut m => simp [runCallback, flashOut, World.setTimeout]
  | flashRemove m => simp [runCallback, flashRemove]
  | orientationSettle =>
    simp only [runCallback, orientationSettle]
    split <;> simp

theorem fireTimer_listeners (t : Timer) (w : World) :
    (fireTimer t w).world.listeners = w.listeners ∧ (fireTimer t w).prevented = false := by
  unfold fireTimer
  exact runCallback_listeners _ _

theorem registered_append (h : Handler) (w w1 : World) (added : List Listener)
    (hw : w1.listeners = w.listeners ++ added) (hadd : ∀ l ∈ added, l.handler ≠ h) :
    registered h w1 = registered h w := by
  unfold registered
  rw [hw, List.any_append]
  have : added.any (fun l => l.handler == h) = false := by
    rw [List.any_eq_false]
    intro l hl
    simpa using hadd l hl
  rw [this, Bool.or_false]

theorem runHandler_registered (h : Handler) (e : Event) (w : World) (x : Handler)
    (hne : h ≠ .mainReady) (hx : x = .touchRipple ∨ x = .mouseTrail) :
    registered x (runHandler h e w).world = registered x w := by
  cases h with
  | mainReady => exact absurd rfl hne
  | mobileReady =>
    obtain ⟨-, added, hl, hadd⟩ := mobileReady_shape w
    apply registered_append x w _ added hl
    intro l hlm
    obtain ⟨-, hh⟩ := hadd l hlm
    rcases hx with rfl | rfl <;> rcases hh with hh | hh | hh | hh | hh | hh <;> simp [hh]
  | keyFlash =>
    simp only [runHandler, keyFlash]
    split
    · rfl
    · simp [registered, (spawnOnBody_listeners _ _ w).1]
  | mouseTrail => simp [runHandler, mouseTrail, registered, (spawnOnBody_listeners _ _ w).1]
  | touchRipple =>
    simp only [runHandler, touchRipple]
    split
    · rfl
    · simp [createTouchEffect, registered, (spawnOnBody_listeners _ _ w).1]
  | btnTouchStart => rfl
  | btnTouchEnd => rfl
  | btnTouchCancel => rfl
  | docTouchEnd => rfl
  | enableAudio =>
    simp only [runHandler, enableAudio, registered]
    induction w.listeners with
    | nil => rfl
    | cons l ls ih =>
      simp only [List.filter_cons, List.any_cons]
      by_cases hl : l.handler = x
      · have : (!(l.target == Target.document && l.type == "touchstart" &&
            l.handler == Handler.enableAudio)) = true := by
          rcases hx with rfl | rfl <;> simp [hl]
        simp only [this, if_true, List.any_cons, ih]
      · have hf : (l.handler == x) = false := by simpa using hl
        split
        · simp only [List.any_cons, ih]
        · rw [ih, hf, Bool.false_or]
  | btnClick => rfl
  | orientationChange => rfl

theorem mobileReady_prevented (w : World) : (mobileReady w).prevented = false := by
  unfold mobileReady
  simp only []
  split
  · rfl
  · split <;> rfl

theorem runHandler_prevented (h : Handler) (e : Event) (w : World) :
    (runHandler h e w).prevented = true ↔
      h = .docTouchEnd ∧ (e.date : Int) - (w.lastTouchEnd : Int) ≤ 300 := by
  cases h with
  | mainReady => simp [runHandler, (mainReady_listeners w).2.1]
  | mobileReady => simp [runHandler, mobileReady_prevented]
  | keyFlash =>
    simp only [runHandler, keyFlash]
    split
    · simp
    · simp [(spawnOnBody_listeners _ _ w).2]
  | mouseTrail => simp [runHandler, mouseTrail, (spawnOnBody_listeners _ _ w).2]
  | touchRipple =>
    simp only [runHandler, touchRipple]
    split
    · simp
    · simp [createTouchEffect, (spawnOnBody_listeners _ _ w).2]
  | btnTouchStart => simp [runHandler, btnTouch]
  | btnTouchEnd => simp [runHandler, btnTouch]
  | btnTouchCancel => simp [runHandler, btnTouch]
  | docTouchEnd => simp [runHandler, docTouchEnd]
  | enableAudio => simp [runHandler, enableAudio]
  | btnClick => simp [runHandler, btnClick]
  | orientationChange => simp [runHandler, orientationChange]

/-! ## C4: which pointer listener is registered -/

/-- C4 (counterexample): the two listeners are decided by two separate
width reads. A viewport 768 px wide when the script body runs and 769 px
wide when `DOMContentLoaded` fires gets both the touch-ripple and the
mouse-trail listener; one that is 769 px and then 768 px wide gets neither. -/
theorem pointer_listeners_not_exclusive :
    (registered .touchRipple (loadMain 768 769 (freshPage sampleDoc 768)) = true ∧
      registered .mouseTrail (loadMain 768 769 (freshPage sampleDoc 768)) = true) ∧
    (registered .touchRipple (loadMain 769 768 (freshPage sampleDoc 769)) = false ∧
      registered .mouseTrail (loadMain 769 768 (freshPage sampleDoc 769)) = false) := by
  decide

/-- C4 (amended): on a page without earlier listeners, the touch-ripple
listener is registered exactly when the viewport is at most 768 px wide while
the script body runs (and the document has a head), and the mouse-trail
listener exactly when the viewport is more than 768 px wide while
`DOMContentLoaded` is handled. When the two reads fall on the same side of
768 exactly one of the two is registered. Afterwards no change of the width,
no timer and no listener other than the `DOMContentLoaded` one of main.js
changes whether either is registered. -/
theorem pointer_listeners_follow_two_reads (atScript atReady : Nat) (w : World)
    (hl : w.listeners = []) :
    (registered .touchRipple (loadMain atScript atReady w) = true ↔
      atScript ≤ 768 ∧ w.dom.head.isSome = true) ∧
    (registered .mouseTrail (loadMain atScript atReady w) = true ↔ 768 < atReady) ∧
    (w.dom.head.isSome = true → (atScript ≤ 768 ↔ atReady ≤ 768) →
      registered .touchRipple (loadMain atScript atReady w) =
        !registered .mouseTrail (loadMain atScript atReady w)) ∧
    (∀ (x : Handler) (width : Nat) (w1 : World),
      registered x (resize width w1) = registered x w1) ∧
    (∀ (t : Timer) (w1 : World), (fireTimer t w1).world.listeners = w1.listeners) ∧
    (∀ (h : Handler) (e : Event) (w1 : World), h ≠ .mainReady →
      registered .touchRipple (runHandler h e w1).world = registered .touchRipple w1 ∧
      registered .mouseTrail (runHandler h e w1).world = registered .mouseTrail w1) := by
  have hls := loadMain_listeners atScript atReady w hl
  have ht : registered .touchRipple (loadMain atScript atReady w) = true ↔
      atScript ≤ 768 ∧ w.dom.head.isSome = true := by
    unfold registered
    rw [hls]
    by_cases hc : atScript ≤ 768 ∧ w.dom.head.isSome = true
    · by_cases hb : atReady ≤ 768 <;> simp [hc, hb]
    · by_cases hb : atReady ≤ 768 <;> simp [hc, hb]
  have hm : registered .mouseTrail (loadMain atScript atReady w) = true ↔ 768 < atReady := by
    unfold registered
    rw [hls]
    by_cases hc : atScript ≤ 768 ∧ w.dom.head.isSome = true
    · by_cases hb : atReady ≤ 768
      · simp [hc, hb]
      · simp [hc, hb]; omega
    · by_cases hb : atReady ≤ 768
      · simp [hc, hb]
      · simp [hc, hb]; omega
  refine ⟨ht, hm, ?_, ?_, ?_, ?_⟩
  · intro hh hside
    by_cases ha : atScript ≤ 768
    · have h1 := ht.2 ⟨ha, hh⟩
      have h2 : registered .mouseTrail (loadMain atScript atReady w) = false := by
        rw [Bool.eq_false_iff, ne_eq, hm]
        have := hside.1 ha
        omega
      rw [h1, h2]
      rfl
    · have h1 : registered .touchRipple (loadMain atScript atReady w) = false := by
        rw [Bool.eq_false_iff, ne_eq, ht]
        exact fun h => ha h.1
      have h2 := hm.2 (by
        have : ¬ atReady ≤ 768 := fun h => ha (hside.2 h)
        omega)
      rw [h1, h2]
      rfl
  · intro x width w1
    rfl
  · intro t w1
    exact (fireTimer_listeners t w1).1
  · intro h e w1 hne
    exact ⟨runHandler_registered h e w1 _ hne (Or.inl rfl),
      runHandler_registered h e w1 _ hne (Or.inr rfl)⟩

/-- C4 (amended) on the sample page, 375 px wide at both reads: only the
touch-ripple listener is registered. -/
theorem pointer_listeners_follow_two_reads_witness :
    (freshPage sampleDoc 375).listeners = [] ∧
    registered .touchRipple (loadMain 375 375 (freshPage sampleDoc 375)) =
      !registered .mouseTrail (loadMain 375 375 (freshPage sampleDoc 375)) :=
  ⟨rfl, (pointer_listeners_follow_two_reads 375 375 (freshPage sampleDoc 375) rfl).2.2.1
    (by decide) (by decide)⟩

/-! ## Lemmas on the time of the last touch end -/

theorem spawnOnBody_lastTouchEnd (a : String) (ttl : Nat) (w : World) :
    (spawnOnBody a ttl w).world.lastTouchEnd = w.lastTouchEnd := by
  unfold spawnOnBody
  cases h : w.dom.body <;> simp [h, World.setTimeout]

theorem appendStyle_lastTouchEnd (w : World) :
    (appendStyle w).world.lastTouchEnd = w.lastTouchEnd := by
  unfold appendStyle
  cases h : w.dom.head <;> simp [h]

theorem lowPerformanceBlock_lastTouchEnd (w : World) :
    (lowPerformanceBlock w).world.lastTouchEnd = w.lastTouchEnd := by
  unfold lowPerformanceBlock
  cases isLowPerformanceDevice w.navigator with
  | error err => simp
  | ok v =>
    by_cases hv : v.truthy = true
    · cases hb : w.dom.body with
      | none => simp [hv]
      | some b =>
        simp only [hv, if_true]
        exact appendStyle_lastTouchEnd _
    · simp [hv]

/-- The `DOMContentLoaded` listener of mobile.js starts `lastTouchEnd` at 0,
whether or not it ends in an exception. -/
theorem mobileReady_lastTouchEnd (w : World) : (mobileReady w).world.lastTouchEnd = 0 := by
  unfold mobileReady
  simp only [addButtonTouchListeners_eq, scheduleFlash_eq, addButtonClickListeners_eq,
    World.addListener]
  split
  · rw [appendStyle_lastTouchEnd]
  · split
    · rw [lowPerformanceBlock_lastTouchEnd, appendStyle_lastTouchEnd]
    · simp only
      rw [lowPerformanceBlock_lastTouchEnd, appendStyle_lastTouchEnd]

theorem pixelTick_lastTouchEnd (m : Bool) (c : Option Nat) (w : World) :
    (pixelTick m c w).world.lastTouchEnd = w.lastTouchEnd := by
  unfold pixelTick
  by_cases h : w.pixelCount < maxPixels m
  · cases c <;> simp [h, World.setTimeout]
  · simp [h]

theorem fireTimer_lastTouchEnd (t : Timer) (w : World) :
    (fireTimer t w).world.lastTouchEnd = w.lastTouchEnd := by
  unfold fireTimer
  cases t.cb with
  | pixelTick m c => exact pixelTick_lastTouchEnd m c _
  | removeNode x => rfl
  | flashOut m => rfl
  | flashRemove m => rfl
  | orientationSettle =>
    simp only [runCallback, orientationSettle]
    split <;> rfl

theorem mainReady_lastTouchEnd (w : World) :
    (mainReady w).world.lastTouchEnd = w.lastTouchEnd := by
  unfold mainReady
  by_cases h : w.innerWidth ≤ 768
  · simp [h, World.addListener]
  · simp [h, World.addListener, createRandomPixels, World.setInterval]

/-- What a step other than the load of mobile.js does to `lastTouchEnd`: the
document `touchend` listener stores the time of its event, every other
listener and every timer leaves it alone. -/
theorem step_lastTouchEnd (s : Step) (w : World) (hs : s.afterLoad = true) :
    (s.run w).world.lastTouchEnd = s.touchEndDate.getD w.lastTouchEnd := by
  cases s with
  | fire t => exact fireTimer_lastTouchEnd t w
  | handle h e =>
    cases h with
    | mainReady => exact mainReady_lastTouchEnd w
    | mobileReady => simp [Step.afterLoad] at hs
    | keyFlash =>
      simp only [Step.run, runHandler, keyFlash, Step.touchEndDate, Option.getD_none]
      split
      · rfl
      · exact spawnOnBody_lastTouchEnd _ _ w
    | mouseTrail => exact spawnOnBody_lastTouchEnd _ _ w
    | touchRipple =>
      simp only [Step.run, runHandler, touchRipple, Step.touchEndDate, Option.getD_none]
      split
      · rfl
      · exact spawnOnBody_lastTouchEnd _ _ w
    | btnTouchStart => rfl
    | btnTouchEnd => rfl
    | btnTouchCancel => rfl
    | docTouchEnd => rfl
    | enableAudio => rfl
    | btnClick => rfl
    | orientationChange => rfl

/-! ## C7: default handling -/

theorem registers_mainScript : Registers mainScript PassiveOnlyRipple := by
  intro w
  refine ⟨_, by rw [(mainScript_listeners w).1, List.append_assoc], ?_⟩
  intro l hl
  rcases List.mem_append.1 hl with h | h
  · simp only [List.mem_singleton] at h
    subst h
    exact Or.inr ⟨by simp, rfl⟩
  · split at h
    · simp only [List.mem_singleton] at h
      subst h
      exact Or.inl ⟨rfl, rfl⟩
    · simp at h

theorem registers_mainReady : Registers mainReady PassiveOnlyRipple := by
  intro w
  refine ⟨_, by rw [(mainReady_listeners w).1, List.append_assoc], ?_⟩
  intro l hl
  rcases List.mem_append.1 hl with h | h
  · simp only [List.mem_singleton] at h
    subst h
    exact Or.inr ⟨by simp, rfl⟩
  · split at h
    · simp at h
    · simp only [List.mem_singleton] at h
      subst h
      exact Or.inr ⟨by simp, rfl⟩

theorem registers_mobileScript : Registers mobileScript PassiveOnlyRipple := by
  intro w
  refine ⟨[⟨.document, "DOMContentLoaded", .mobileReady, none, false⟩,
    ⟨.window, "orientationchange", .orientationChange, none, false⟩], ?_, ?_⟩
  · simp [mobileScript, World.addListener]
  · intro l hl
    simp only [List.mem_cons, List.mem_singleton, List.not_mem_nil, or_false] at hl
    rcases hl with rfl | rfl <;> exact Or.inr ⟨by simp, rfl⟩

theorem registers_mobileReady : Registers mobileReady PassiveOnlyRipple := by
  intro w
  obtain ⟨-, added, hl, hadd⟩ := mobileReady_shape w
  refine ⟨added, hl, ?_⟩
  intro l hlm
  obtain ⟨hp, hh⟩ := hadd l hlm
  refine Or.inr ⟨?_, hp⟩
  rcases hh with hh | hh | hh | hh | hh | hh <;> simp [hh]

theorem step_prevented (s : Step) (w : World) :
    (s.run w).prevented =
      match s.touchEndDate with
      | some d => decide ((d : Int) - (w.lastTouchEnd : Int) ≤ 300)
      | none => false := by
  cases s with
  | fire t => exact (fireTimer_listeners t w).2
  | handle h e =>
    cases h with
    | docTouchEnd => rfl
    | mainReady => exact (mainReady_listeners w).2.1
    | mobileReady => exact mobileReady_prevented w
    | keyFlash =>
      simp only [Step.run, runHandler, keyFlash, Step.touchEndDate]
      split
      · rfl
      · exact (spawnOnBody_listeners _ _ w).2
    | mouseTrail => exact (spawnOnBody_listeners _ _ w).2
    | touchRipple =>
      simp only [Step.run, runHandler, touchRipple, Step.touchEndDate]
      split
      · rfl
      · exact (spawnOnBody_listeners _ _ w).2
    | btnTouchStart => rfl
    | btnTouchEnd => rfl
    | btnTouchCancel => rfl
    | enableAudio => rfl
    | btnClick => rfl
    | orientationChange => rfl

theorem runSteps_eq (steps : List Step) (w : World)
    (hs : ∀ s ∈ steps, s.afterLoad = true) :
    runSteps steps w = expectedPrevented w.lastTouchEnd steps := by
  induction steps generalizing w with
  | nil => rfl
  | cons s rest ih =>
    have h1 := step_prevented s w
    have h2 := step_lastTouchEnd s w (hs s (List.mem_cons_self _ _))
    have h3 := ih (s.run w).world (fun x hx => hs x (List.mem_cons_of_mem _ hx))
    simp only [runSteps, expectedPrevented, h3, h1, h2]
    cases s.touchEndDate <;> rfl

/-- C7 (counterexample): after mobile.js has loaded on the sample page, the
document `touchend` listener is registered without a `passive` option, and
of two `touchend` events handled at wall-clock times 1000 and 1200 the second
has `preventDefault` called on it. -/
theorem touchend_guard_prevents_default :
    (⟨.document, "touchend", .docTouchEnd, none, false⟩ : Listener) ∈
      (loadMobile (freshPage sampleDoc 375)).listeners ∧
    (dispatch (touchEndAt 1000) (loadMobile (freshPage sampleDoc 375))).prevented = false ∧
    (dispatch (touchEndAt 1200)
      (dispatch (touchEndAt 1000) (loadMobile (freshPage sampleDoc 375))).world).prevented
        = true := by
  decide

/-- C7 (amended): a listener calls `preventDefault` exactly when it is the
document `touchend` listener of mobile.js and the event is handled at most
300 ms after the previous `touchend` (`lastTouchEnd`, signed difference); the
key-down, mouse-move, touch-start, touch-cancel, orientation-change and click
listeners and all timer callbacks never call it. The load of mobile.js
starts `lastTouchEnd` at 0, the `touchend` listener stores the time of each
event it handles, and nothing else changes it: in every sequence of listener
runs and timer firings after the load, the steps that call `preventDefault`
are exactly the `touchend` runs that come at most 300 ms after the previous
`touchend` run (after time 0 for the first). The only listener registered
with `passive: true` is the touch-ripple listener of main.js; every other
listener of the two scripts is registered without a `passive` option. -/
theorem only_touchend_guard_prevents_default :
    (∀ (h : Handler) (e : Event) (w : World),
      (runHandler h e w).prevented = true ↔
        h = .docTouchEnd ∧ (e.date : Int) - (w.lastTouchEnd : Int) ≤ 300) ∧
    (∀ (t : Timer) (w : World), (fireTimer t w).prevented = false) ∧
    Registers mainScript PassiveOnlyRipple ∧
    Registers mainReady PassiveOnlyRipple ∧
    Registers mobileScript PassiveOnlyRipple ∧
    Registers mobileReady PassiveOnlyRipple ∧
    (∀ w : World, (mobileReady w).world.lastTouchEnd = 0) ∧
    (∀ (e : Event) (w : World), (runHandler .docTouchEnd e w).world.lastTouchEnd = e.date) ∧
    (∀ (s : Step) (w : World), s.afterLoad = true → s.touchEndDate = none →
      (s.run w).world.lastTouchEnd = w.lastTouchEnd) ∧
    (∀ (steps : List Step) (w : World), (∀ s ∈ steps, s.afterLoad = true) →
      runSteps steps (mobileReady w).world = expectedPrevented 0 steps) := by
  refine ⟨runHandler_prevented, fun t w => (fireTimer_listeners t w).2, registers_mainScript,
    registers_mainReady, registers_mobileScript, registers_mobileReady,
    mobileReady_lastTouchEnd, fun e w => rfl, ?_, ?_⟩
  · intro s w hs hnone
    rw [step_lastTouchEnd s w hs, hnone]
    rfl
  · intro steps w hs
    rw [runSteps_eq steps _ hs, mobileReady_lastTouchEnd]

/-- C7 (amended) on the sample page after mobile.js has loaded: of the
`touchend` events handled at times 1000, 1200 and 1600, with a key press
between the first two, only the second has `preventDefault` called on it
(200 ms after the first); the first comes 1000 ms after the initial 0 and the
third 400 ms after the second. -/
theorem only_touchend_guard_prevents_default_witness :
    runSteps
      [.handle .docTouchEnd (touchEndAt 1000), .handle .keyFlash (keyDownOf "a"),
       .handle .docTouchEnd (touchEndAt 1200), .handle .docTouchEnd (touchEndAt 1600)]
      (mobileReady (freshPage sampleDoc 375)).world = [false, false, true, false] :=
  (only_touchend_guard_prevents_default.2.2.2.2.2.2.2.2.2
    [.handle .docTouchEnd (touchEndAt 1000), .handle .keyFlash (keyDownOf "a"),
     .handle .docTouchEnd (touchEndAt 1200), .handle .docTouchEnd (touchEndAt 1600)]
    (freshPage sampleDoc 375) (by decide)).trans (by decide)

/-! ## Lemmas on forests -/

namespace Forest

theorem append_nil (f : Forest) : append f nil = f := by
  induction f with
  | nil => rfl
  | cons e k s _ ihs => simp [append, ihs]

theorem append_assoc (f g h : Forest) : append (append f g) h = append f (append g h) := by
  induction f with
  | nil => rfl
  | cons e k s _ ihs => simp [append, ihs]

theorem selectAll_append (c : String) (f g : Forest) :
    selectAll c (append f g) = selectAll c f ++ selectAll c g := by
  induction f with
  | nil => rfl
  | cons e k s _ ihs => simp [append, selectAll, ihs]

theorem hasId_append (x : Nat) (f g : Forest) :
    hasId x (append f g) = (hasId x f || hasId x g) := by
  induction f with
  | nil => simp [append, hasId]
  | cons e k s _ ihs => simp [append, hasId, ihs, Bool.or_assoc]

theorem isChild_append (x : Nat) (f g : Forest) :
    isChild x (append f g) = (isChild x f || isChild x g) := by
  induction f with
  | nil => simp [append, isChild]
  | cons e k s _ ihs => simp [append, isChild, ihs, Bool.or_assoc]

theorem hasId_iff_mem_ids (x : Nat) (f : Forest) : hasId x f = true ↔ x ∈ ids f := by
  induction f with
  | nil => simp [hasId, ids]
  | cons e k s ihk ihs =>
    simp only [hasId, ids, Bool.or_eq_true, beq_iff_eq, ihk, ihs, List.mem_cons, List.mem_append]
    constructor
    · rintro ((h | h) | h)
      · exact Or.inl h.symm
      · exact Or.inr (Or.inl h)
      · exact Or.inr (Or.inr h)
    · rintro (h | h | h)
      · exact Or.inl (Or.inl h.symm)
      · exact Or.inl (Or.inr h)
      · exact Or.inr h

theorem mem_selectAll_hasId (c : String) (x : Nat) (f : Forest) (h : x ∈ selectAll c f) :
    hasId x f = true := by
  induction f with
  | nil => simp [selectAll] at h
  | cons e k s ihk ihs =>
    simp only [selectAll, List.mem_append] at h
    simp only [hasId, Bool.or_eq_true, beq_iff_eq]
    rcases h with h | h | h
    · split at h
      · simp only [List.mem_singleton] at h
        exact Or.inl (Or.inl h.symm)
      · simp at h
    · exact Or.inl (Or.inr (ihk h))
    · exact Or.inr (ihs h)

theorem hasId_erase_self (x : Nat) (f : Forest) : hasId x (erase x f) = false := by
  induction f with
  | nil => rfl
  | cons e k s ihk ihs =>
    simp only [erase]
    split
    · exact ihs
    · rename_i h
      simp [hasId, ihk, ihs, h]

theorem isChild_eraseChild_self (x : Nat) (f : Forest) : isChild x (eraseChild x f) = false := by
  induction f with
  | nil => rfl
  | cons e k s _ ihs => simp [eraseChild, isChild, ihs, hasId_erase_self]

theorem erase_of_not_hasId (x : Nat) (f : Forest) (h : hasId x f = false) : erase x f = f := by
  induction f with
  | nil => rfl
  | cons e k s ihk ihs =>
    simp only [hasId, Bool.or_eq_false_iff, beq_eq_false_iff_ne, ne_eq] at h
    simp [erase, h.1.1, ihk h.1.2, ihs h.2]

theorem erase_append (x : Nat) (f g : Forest) :
    erase x (append f g) = append (erase x f) (erase x g) := by
  induction f with
  | nil => rfl
  | cons e k s _ ihs =>
    simp only [append, erase]
    split
    · exact ihs
    · simp [append, ihs]

theorem selectAll_erase_le (c : String) (x : Nat) (f : Forest) :
    (selectAll c (erase x f)).length ≤ (selectAll c f).length := by
  induction f with
  | nil => simp [erase]
  | cons e k s ihk ihs =>
    simp only [erase]
    split
    · simp only [selectAll, List.length_append]
      omega
    · simp only [selectAll, List.length_append]
      omega

theorem insertKids_of_not_hasId (p : Nat) (n f : Forest) (h : hasId p f = false) :
    insertKids p f n = f := by
  induction f with
  | nil => rfl
  | cons e k s _ ihs =>
    simp only [hasId, Bool.or_eq_false_iff, beq_eq_false_iff_ne, ne_eq] at h
    simp [insertKids, h.1.1, h.1.2, ihs h.2]

theorem selectAll_insertKids_length (c : String) (p : Nat) (n f : Forest)
    (h : hasId p f = true) :
    (selectAll c (insertKids p f n)).length = (selectAll c f).length + (selectAll c n).length := by
  induction f with
  | nil => simp [hasId] at h
  | cons e k s ihk ihs =>
    simp only [insertKids]
    by_cases he : e.id = p
    · simp only [he, if_true, selectAll, selectAll_append, List.length_append]
      omega
    · by_cases hk : hasId p k = true
      · simp only [he, hk, if_true, if_false, selectAll, List.length_append, ihk hk]
        omega
      · have hs : hasId p s = true := by
          simp only [hasId, Bool.or_eq_true, beq_iff_eq] at h
          rcases h with (h | h) | h
          · exact absurd h he
          · exact absurd h hk
          · exact h
        simp only [he, hk, if_false, selectAll, List.length_append, ihs hs, Bool.false_eq_true]
        omega

theorem hasId_insertKids (x p : Nat) (n f : Forest) :
    hasId x (insertKids p f n) = (hasId x f || (hasId p f && hasId x n)) := by
  induction f with
  | nil => simp [insertKids, hasId]
  | cons e k s ihk ihs =>
    simp only [insertKids]
    by_cases he : e.id = p
    · simp only [he, if_true, hasId, hasId_append, beq_self_eq_true, Bool.true_or, Bool.true_and]
      cases (p == x) <;> cases hasId x k <;> cases hasId x s <;> cases hasId x n <;> rfl
    · have he' : (e.id == p) = false := by simpa using he
      by_cases hk : hasId p k = true
      · simp only [he, hk, if_true, if_false, hasId, ihk, he', Bool.true_and, Bool.false_or,
          Bool.true_or]
        cases (e.id == x) <;> cases hasId x k <;> cases hasId x s <;> cases hasId x n <;> rfl
      · have hk' : hasId p k = false := by simpa using hk
        simp only [he, hk', if_false, hasId, ihs, he', Bool.false_or, Bool.false_eq_true]
        cases (e.id == x) <;> cases hasId x k <;> cases hasId x s <;> cases hasId x n <;>
          cases hasId p s <;> rfl

theorem selectAll_setAnimation (c : String) (x : Nat) (a : String) (f : Forest) :
    selectAll c (setAnimation x a f) = selectAll c f := by
  induction f with
  | nil => rfl
  | cons e k s ihk ihs =>
    simp only [setAnimation, selectAll, ihk, ihs]
    split <;> rfl

theorem hasId_setAnimation (y x : Nat) (a : String) (f : Forest) :
    hasId y (setAnimation x a f) = hasId y f := by
  induction f with
  | nil => rfl
  | cons e k s ihk ihs =>
    simp only [setAnimation, hasId, ihk, ihs]
    split <;> rfl

end Forest

/-! ## Lemmas on the ambient spawner -/

theorem appendChild_count_le (c : Nat) (n : Forest) (d : Dom) :
    ((d.appendChild c n).querySelectorAll "random-pixel").length ≤
      (d.querySelectorAll "random-pixel").length + (n.selectAll "random-pixel").length := by
  unfold Dom.appendChild Dom.querySelectorAll
  by_cases h : d.doc.hasId c = true
  · simp only [h, if_true]
    rw [Forest.selectAll_insertKids_length _ _ _ _ h]
  · simp only [h, if_false, Bool.false_eq_true]
    omega

theorem removeChild_count_le (x : Nat) (d : Dom) :
    ((d.removeChild x).querySelectorAll "random-pixel").length ≤
      (d.querySelectorAll "random-pixel").length := by
  unfold Dom.removeChild Dom.querySelectorAll
  split
  · exact Forest.selectAll_erase_le _ _ _
  · exact le_refl _

theorem removeIfAttached_count_le (x : Nat) (d : Dom) :
    ((d.removeIfAttached x).querySelectorAll "random-pixel").length ≤
      (d.querySelectorAll "random-pixel").length := by
  unfold Dom.removeIfAttached
  split
  · exact removeChild_count_le x d
  · exact le_refl _

theorem pixelTick_at_cap (m : Bool) (c : Option Nat) (w : World)
    (h : maxPixels m ≤ w.pixelCount) : pixelTick m c w = ⟨w, none, false⟩ := by
  unfold pixelTick
  rw [if_neg (by omega)]

theorem pixelTick_count_le (m : Bool) (c : Option Nat) (w : World) :
    (pixelTick m c w).world.pixelCount ≤ w.pixelCount + 1 := by
  unfold pixelTick
  by_cases h : w.pixelCount < maxPixels m
  · rw [if_pos h]
    cases c with
    | none => simp [World.pixelCount]
    | some c =>
      simp only [World.pixelCount, World.setTimeout, World.newElem]
      exact appendChild_count_le c _ w.dom
  · rw [if_neg h]
    exact Nat.le_succ _

theorem pixelTick_count_cap (m : Bool) (c : Option Nat) (w : World)
    (h : w.pixelCount ≤ maxPixels m) : (pixelTick m c w).world.pixelCount ≤ maxPixels m := by
  by_cases hc : w.pixelCount < maxPixels m
  · have := pixelTick_count_le m c w
    omega
  · rw [pixelTick_at_cap m c w (by omega)]
    exact h

theorem runCallback_count_cap (m : Bool) (cb : Callback) (w : World)
    (hcb : ∀ m1 c, cb = .pixelTick m1 c → m1 = m) (h : w.pixelCount ≤ maxPixels m) :
    (runCallback cb w).world.pixelCount ≤ maxPixels m := by
  cases cb with
  | pixelTick m1 c =>
    obtain rfl := hcb m1 c rfl
    exact pixelTick_count_cap m1 c w h
  | removeNode x =>
    exact le_trans (removeIfAttached_count_le x w.dom) h
  | flashOut x =>
    simp only [runCallback, flashOut, World.setTimeout, World.pixelCount, Dom.querySelectorAll,
      Forest.selectAll_setAnimation]
    exact h
  | flashRemove x =>
    exact le_trans (removeIfAttached_count_le x w.dom) h
  | orientationSettle =>
    simp only [runCallback, orientationSettle]
    split <;> exact h

theorem runCallback_timers (cb : Callback) (w : World) :
    ∀ t ∈ (runCallback cb w).world.timers, t ∈ w.timers ∨ ∀ m c, t.cb ≠ .pixelTick m c := by
  intro t ht
  cases cb with
  | pixelTick m c =>
    simp only [runCallback, pixelTick] at ht
    split at ht
    · cases c with
      | none => exact Or.inl ht
      | some c =>
        simp only [World.setTimeout, List.mem_append, List.mem_singleton] at ht
        rcases ht with h | rfl
        · exact Or.inl h
        · exact Or.inr (by simp)
    · exact Or.inl ht
  | removeNode x => exact Or.inl ht
  | flashOut x =>
    simp only [runCallback, flashOut, World.setTimeout, List.mem_append, List.mem_singleton] at ht
    rcases ht with h | rfl
    · exact Or.inl h
    · exact Or.inr (by simp)
  | flashRemove x => exact Or.inl ht
  | orientationSettle =>
    simp only [runCallback, orientationSettle] at ht
    split at ht <;> exact Or.inl ht

theorem mem_replace (l : List Timer) (a b u : Timer) (h : u ∈ l.replace a b) :
    u ∈ l ∨ u = b := by
  induction l with
  | nil => simp at h
  | cons x xs ih =>
    rw [List.replace_cons] at h
    cases hax : (a == x) with
    | true =>
      rw [hax] at h
      simp only [List.mem_cons] at h
      rcases h with h | h
      · exact Or.inr h
      · exact Or.inl (List.mem_cons_of_mem _ h)
    | false =>
      rw [hax] at h
      simp only [List.mem_cons] at h
      rcases h with h | h
      · exact Or.inl (by simp [h])
      · rcases ih h with h1 | h1
        · exact Or.inl (List.mem_cons_of_mem _ h1)
        · exact Or.inr h1

theorem fireTimer_invariant (m : Bool) (t : Timer) (w : World) (ht : t ∈ w.timers)
    (hagree : TicksAgree m w) (h : w.pixelCount ≤ maxPixels m) :
    TicksAgree m (fireTimer t w).world ∧ (fireTimer t w).world.pixelCount ≤ maxPixels m := by
  unfold fireTimer
  refine ⟨?_, ?_⟩
  · intro u hu m1 c hcb
    rcases runCallback_timers _ _ u hu with h1 | h1
    · simp only at h1
      cases hp : t.period with
      | none =>
        rw [hp] at h1
        exact hagree u (List.mem_of_mem_erase h1) m1 c hcb
      | some p =>
        rw [hp] at h1
        simp only at h1
        rcases mem_replace _ _ _ _ h1 with h2 | h2
        · exact hagree u h2 m1 c hcb
        · rw [h2] at hcb
          exact hagree t ht m1 c hcb
    · exact absurd hcb (h1 m1 c)
  · exact runCallback_count_cap m t.cb _ (hagree t ht) h

/-! ## C1: the ambient pixel cap -/

/-- C1: with cap 10 when `isMobile` and 20 otherwise, a tick that finds the
live `.random-pixel` count at or above the cap changes nothing (it creates no
marker and schedules nothing); a tick never raises the count by more than
one; and from a state holding at most cap markers, whose ambient ticks were
all created with this `isMobile`, every state reached by firing pending
timers in any order and at any time (ticks, TTL removals, and the other
timers of the page) holds at most cap markers. -/
theorem ambient_pixel_cap (isMobile : Bool) :
    maxPixels isMobile = (if isMobile then 10 else 20) ∧
    (∀ (container : Option Nat) (w : World), maxPixels isMobile ≤ w.pixelCount →
      pixelTick isMobile container w = ⟨w, none, false⟩) ∧
    (∀ (container : Option Nat) (w : World),
      (pixelTick isMobile container w).world.pixelCount ≤ w.pixelCount + 1) ∧
    (∀ w0 : World, w0.pixelCount ≤ maxPixels isMobile → TicksAgree isMobile w0 →
      ∀ w : World, Relation.ReflTransGen Fires w0 w → w.pixelCount ≤ maxPixels isMobile) := by
  refine ⟨rfl, fun c w h => pixelTick_at_cap isMobile c w h,
    fun c w => pixelTick_count_le isMobile c w, ?_⟩
  intro w0 h0 hagree w hreach
  have key : TicksAgree isMobile w ∧ w.pixelCount ≤ maxPixels isMobile := by
    induction hreach with
    | refl => exact ⟨hagree, h0⟩
    | tail _ hstep ih =>
      obtain ⟨t, ht, rfl⟩ := hstep
      exact fireTimer_invariant isMobile t _ ht ih.1 ih.2
  exact key.2

/-- C1 on the sample desktop page: after `DOMContentLoaded` and the first
tick of the interval the cap of 20 holds. -/
theorem ambient_pixel_cap_witness :
    (fireTimer (ambientTimer 0 1000 false (some 3))
      (mainReady (freshPage sampleDoc 1024)).world).world.pixelCount ≤ maxPixels false :=
  (ambient_pixel_cap false).2.2.2 (mainReady (freshPage sampleDoc 1024)).world (by decide)
    (by
      intro t ht m1 c hcb
      have hmem : t ∈ [ambientTimer 0 1000 false (some 3)] := ht
      simp only [List.mem_singleton] at hmem
      subst hmem
      simp only [ambientTimer, Callback.pixelTick.injEq] at hcb
      exact hcb.1.symm)
    _ (Relation.ReflTransGen.single ⟨ambientTimer 0 1000 false (some 3), by decide, rfl⟩)

/-! ## Lemmas on removal -/

namespace Forest

theorem isChild_hasId (x : Nat) (f : Forest) (h : isChild x f = true) : hasId x f = true := by
  induction f with
  | nil => simp [isChild] at h
  | cons e k s _ ihs =>
    simp only [isChild, Bool.or_eq_true] at h
    simp only [hasId, Bool.or_eq_true]
    rcases h with h | h
    · exact Or.inl (Or.inr h)
    · exact Or.inr (ihs h)

theorem hasId_of_count_zero (x : Nat) (f : Forest) (h : (ids f).count x = 0) :
    hasId x f = false := by
  rw [Bool.eq_false_iff, ne_eq, hasId_iff_mem_ids]
  exact List.count_eq_zero.1 h

theorem count_pos_of_hasId (x : Nat) (f : Forest) (h : hasId x f = true) :
    0 < (ids f).count x :=
  List.count_pos_iff.2 ((hasId_iff_mem_ids x f).1 h)

theorem find_cases (x : Nat) (f : Forest) :
    find x f = nil ∨
      ∃ e k, find x f = cons e k nil ∧ e.id = x ∧ (ids k).count x + 1 ≤ (ids f).count x := by
  induction f with
  | nil => exact Or.inl rfl
  | cons e k s ihk ihs =>
    by_cases he : e.id = x
    · right
      refine ⟨e, k, by simp [find, he], he, ?_⟩
      simp only [ids, List.count_cons, List.count_append, he, beq_self_eq_true, if_true]
      omega
    · have hne : (e.id == x) = false := by simpa using he
      cases hk : find x k with
      | nil =>
        have hf : find x (cons e k s) = find x s := by simp [find, he, hk]
        rw [hf]
        rcases ihs with h | ⟨e1, k1, h1, h2, h3⟩
        · exact Or.inl h
        · right
          refine ⟨e1, k1, h1, h2, ?_⟩
          simp only [ids, List.count_cons, List.count_append, hne]
          omega
      | cons e0 k0 s0 =>
        have hf : find x (cons e k s) = find x k := by simp [find, he, hk]
        rw [hf]
        rcases ihk with h | ⟨e1, k1, h1, h2, h3⟩
        · exact Or.inl h
        · right
          refine ⟨e1, k1, h1, h2, ?_⟩
          simp only [ids, List.count_cons, List.count_append, hne]
          omega

theorem findChild_cases (x : Nat) (f : Forest) :
    findChild x f = nil ∨
      ∃ e k, findChild x f = cons e k nil ∧ e.id = x ∧
        (ids k).count x + 1 ≤ (ids f).count x := by
  induction f with
  | nil => exact Or.inl rfl
  | cons e k s _ ihs =>
    cases hk : find x k with
    | nil =>
      have hf : findChild x (cons e k s) = findChild x s := by simp [findChild, hk]
      rw [hf]
      rcases ihs with h | ⟨e1, k1, h1, h2, h3⟩
      · exact Or.inl h
      · right
        refine ⟨e1, k1, h1, h2, ?_⟩
        simp only [ids, List.count_cons, List.count_append]
        omega
    | cons e0 k0 s0 =>
      have hf : findChild x (cons e k s) = find x k := by simp [findChild, hk]
      rw [hf]
      rcases find_cases x k with h | ⟨e1, k1, h1, h2, h3⟩
      · exact Or.inl h
      · right
        refine ⟨e1, k1, h1, h2, ?_⟩
        simp only [ids, List.count_cons, List.count_append]
        omega

end Forest

theorem hasParent_removeChild (x : Nat) (d : Dom)
    (huniq : (d.doc.ids ++ d.detached.ids).count x ≤ 1) :
    (d.removeChild x).hasParent x = false := by
  rw [List.count_append] at huniq
  unfold Dom.removeChild Dom.hasParent
  by_cases hdoc : d.doc.hasId x = true
  · simp only [hdoc, if_true, Forest.hasId_erase_self, Bool.false_or, Forest.isChild_append,
      Bool.or_eq_false_iff]
    have hpos := Forest.count_pos_of_hasId x _ hdoc
    refine ⟨?_, ?_⟩
    · rw [Bool.eq_false_iff]
      intro hc
      have := Forest.count_pos_of_hasId x _ (Forest.isChild_hasId x _ hc)
      omega
    · rcases Forest.find_cases x d.doc with h | ⟨e, k, h1, -, h3⟩
      · rw [h]; rfl
      · rw [h1]
        simp only [Forest.isChild, Bool.or_false]
        exact Forest.hasId_of_count_zero x k (by omega)
  · have hdoc' : d.doc.hasId x = false := by simpa using hdoc
    simp only [hdoc', if_false, Bool.false_or, Forest.isChild_append, Bool.false_eq_true,
      Forest.isChild_eraseChild_self]
    rcases Forest.findChild_cases x d.detached with h | ⟨e, k, h1, -, h3⟩
    · rw [h]; rfl
    · rw [h1]
      simp only [Forest.isChild, Bool.or_false]
      exact Forest.hasId_of_count_zero x k (by omega)

theorem hasParent_removeIfAttached (x : Nat) (d : Dom)
    (huniq : (d.doc.ids ++ d.detached.ids).count x ≤ 1) :
    (d.removeIfAttached x).hasParent x = false := by
  unfold Dom.removeIfAttached
  by_cases h : d.hasParent x = true
  · rw [if_pos h]
    exact hasParent_removeChild x d huniq
  · rw [if_neg h]
    simpa using h

/-! ## C3: removal is idempotent -/

/-- C3: for every DOM state and every marker `x` (an element, so a node that
occurs at most once), the removal block
`if (x.parentNode) x.parentNode.removeChild(x)` and the call `x.remove()`
leave the DOM unchanged when `x` is already detached; after either of them
`x` has no parent; running either twice gives the same DOM as running it
once; and neither raises an error. -/
theorem removal_idempotent (x : Nat) (d : Dom)
    (huniq : (d.doc.ids ++ d.detached.ids).count x ≤ 1) :
    (d.hasParent x = false → d.removeIfAttached x = d ∧ d.remove x = d) ∧
    ((d.removeIfAttached x).hasParent x = false ∧ (d.remove x).hasParent x = false) ∧
    (d.removeIfAttached x).removeIfAttached x = d.removeIfAttached x ∧
    (d.remove x).remove x = d.remove x ∧
    (∀ w : World, (removeNode x w).error = none ∧ (flashRemove x w).error = none) := by
  have hdet := hasParent_removeIfAttached x d huniq
  have hidem : (d.removeIfAttached x).removeIfAttached x = d.removeIfAttached x := by
    generalize d.removeIfAttached x = d1 at hdet ⊢
    unfold Dom.removeIfAttached
    rw [if_neg (by simp [hdet])]
  refine ⟨?_, ⟨hdet, hdet⟩, hidem, hidem, fun w => ⟨rfl, rfl⟩⟩
  intro h
  have : d.removeIfAttached x = d := by
    unfold Dom.removeIfAttached
    rw [if_neg (by simp [h])]
  exact ⟨this, this⟩

/-- C3 on the sample page: removing the first flash message twice is the
same as removing it once, and it is detached afterwards. -/
theorem removal_idempotent_witness :
    ((⟨sampleDoc, .nil⟩ : Dom).removeIfAttached 4).removeIfAttached 4 =
      (⟨sampleDoc, .nil⟩ : Dom).removeIfAttached 4 ∧
    ((⟨sampleDoc, .nil⟩ : Dom).removeIfAttached 4).hasParent 4 = false :=
  ⟨(removal_idempotent 4 ⟨sampleDoc, .nil⟩ (by decide)).2.2.1,
    (removal_idempotent 4 ⟨sampleDoc, .nil⟩ (by decide)).2.1.1⟩

/-! ## Lemmas on removal timers -/

theorem flashTimers_getElem (ms : List Nat) (index tid now i m : Nat) (h : ms[i]? = some m) :
    (flashTimers ms index tid now)[i]? =
      some ⟨tid + i, now + (3000 + (index + i) * 500), none, .flashOut m⟩ := by
  induction ms generalizing index tid i with
  | nil => simp at h
  | cons a as ih =>
    cases i with
    | zero =>
      simp only [List.getElem?_cons_zero, Option.some.injEq] at h
      subst h
      simp [flashTimers]
    | succ i =>
      simp only [List.getElem?_cons_succ] at h
      simp only [flashTimers, List.getElem?_cons_succ]
      rw [ih (index + 1) (tid + 1) i h]
      have h1 : tid + 1 + i = tid + (i + 1) := by omega
      have h2 : index + 1 + i = index + (i + 1) := by omega
      rw [h1, h2]

theorem animationsOf_setAnimation (x : Nat) (a : String) (f : Forest) :
    ∀ b ∈ (f.setAnimation x a).animationsOf x, b = a := by
  induction f with
  | nil => simp [Forest.setAnimation, Forest.animationsOf]
  | cons e k s ihk ihs =>
    intro b hb
    simp only [Forest.setAnimation, Forest.animationsOf, List.mem_append] at hb
    rcases hb with h | h | h
    · by_cases he : e.id = x
      · simp [he] at h
        exact h
      · simp [he] at h
    · exact ihk b h
    · exact ihs b h

theorem removeIfAttached_doc_hasId (x : Nat) (d : Dom) :
    (d.removeIfAttached x).doc.hasId x = false := by
  unfold Dom.removeIfAttached Dom.removeChild Dom.hasParent
  by_cases hdoc : d.doc.hasId x = true
  · simp [hdoc, Forest.hasId_erase_self]
  · have hdoc' : d.doc.hasId x = false := by simpa using hdoc
    by_cases hc : d.detached.isChild x = true
    · simp [hdoc', hc]
    · simp [hdoc', hc]

theorem fireTimer_removeNode (t : Timer) (x : Nat) (w : World) (hcb : t.cb = .removeNode x)
    (hnow : w.now ≤ t.due) :
    (fireTimer t w).world.now = t.due ∧ (fireTimer t w).world.dom.doc.hasId x = false ∧
      (fireTimer t w).error = none := by
  unfold fireTimer
  rw [hcb]
  exact ⟨Nat.max_eq_right hnow, removeIfAttached_doc_hasId x w.dom, rfl⟩

theorem fireTimer_flashRemove (t : Timer) (x : Nat) (w : World) (hcb : t.cb = .flashRemove x)
    (hnow : w.now ≤ t.due) :
    (fireTimer t w).world.now = t.due ∧ (fireTimer t w).world.dom.doc.hasId x = false ∧
      (fireTimer t w).error = none := by
  unfold fireTimer
  rw [hcb]
  exact ⟨Nat.max_eq_right hnow, removeIfAttached_doc_hasId x w.dom, rfl⟩

theorem fireTimer_flashOut (t : Timer) (m : Nat) (w : World) (hcb : t.cb = .flashOut m)
    (hp : t.period = none) (hnow : w.now ≤ t.due) :
    (fireTimer t w).world.now = t.due ∧
    (fireTimer t w).world.timers =
      w.timers.erase t ++ [⟨w.nextTimer, t.due + 300, none, .flashRemove m⟩] ∧
    (∀ a ∈ (fireTimer t w).world.dom.doc.animationsOf m,
      a = "mobileFlashOut 0.3s ease-in forwards") ∧
    (fireTimer t w).world.dom.doc.hasId m = w.dom.doc.hasId m := by
  unfold fireTimer
  rw [hcb, hp]
  simp only [runCallback, flashOut, World.setTimeout, Nat.max_eq_right hnow]
  exact ⟨trivial, trivial, animationsOf_setAnimation m _ w.dom.doc,
    Forest.hasId_setAnimation m m _ w.dom.doc⟩

theorem firstTag_hasId (t : String) (b : Nat) (f : Forest) (h : f.firstTag t = some b) :
    f.hasId b = true := by
  induction f with
  | nil => simp [Forest.firstTag] at h
  | cons e k s _ ihs =>
    simp only [Forest.firstTag] at h
    simp only [Forest.hasId, Bool.or_eq_true, beq_iff_eq]
    split at h
    · simp only [Option.some.injEq] at h
      exact Or.inl (Or.inl h)
    · exact Or.inr (ihs h)

theorem body_hasId (d : Dom) (b : Nat) (h : d.body = some b) : d.doc.hasId b = true := by
  unfold Dom.body Dom.rootChild at h
  cases hd : d.doc with
  | nil => simp [hd] at h
  | cons e k s =>
    rw [hd] at h
    simp only at h
    split at h
    · simp [Forest.hasId, firstTag_hasId _ b k h]
    · simp at h

theorem spawnOnBody_spec (a : String) (ttl : Nat) (w : World) (b : Nat)
    (hb : w.dom.body = some b) :
    (spawnOnBody a ttl w).error = none ∧
    (spawnOnBody a ttl w).world.timers =
      w.timers ++ [⟨w.nextTimer, w.now + ttl, none, .removeNode w.nextId⟩] ∧
    (spawnOnBody a ttl w).world.dom.doc.hasId w.nextId = true := by
  unfold spawnOnBody
  simp only [hb, World.setTimeout, Dom.appendChild, body_hasId w.dom b hb, if_true,
    Forest.hasId_insertKids, World.newElem, Forest.hasId, beq_self_eq_true, Bool.true_or,
    Bool.true_and, Bool.or_true, and_self]

theorem flashTimers_due (ms : List Nat) (index tid now i : Nat) (t : Timer)
    (h : (flashTimers ms index tid now)[i]? = some t) :
    t.due = now + (3000 + (index + i) * 500) := by
  induction ms generalizing index tid i with
  | nil => simp [flashTimers] at h
  | cons a as ih =>
    cases i with
    | zero =>
      simp only [flashTimers, List.getElem?_cons_zero, Option.some.injEq] at h
      subst h
      rfl
    | succ i =>
      simp only [flashTimers, List.getElem?_cons_succ] at h
      rw [ih (index + 1) (tid + 1) i h]
      have h2 : index + 1 + i = index + (i + 1) := by omega
      rw [h2]

/-! ## C8: the flash-message stagger -/

/-- C8: whatever the number of flash messages present when
`DOMContentLoaded` is handled at time `w.now`, the handler adds exactly one
timer per message, in document order; the timer of the message at index `i`
starts the fade-out and is due `3000 + 500 * i` ms after load (3000, 3500,
4000 for three messages), the due times increase strictly with the index;
fired at its due time it sets the fade-out animation, keeps the message in
the document and schedules `message.remove()` exactly 300 ms later; and that
timer, fired at its due time, takes the message out of the document. -/
theorem flash_stagger (w : World) :
    (mobileReady w).world.timers =
      w.timers ++ flashTimers (w.dom.querySelectorAll "mobile-flash-message") 0 w.nextTimer w.now ∧
    (∀ (i m : Nat), (w.dom.querySelectorAll "mobile-flash-message")[i]? = some m →
      (flashTimers (w.dom.querySelectorAll "mobile-flash-message") 0 w.nextTimer w.now)[i]? =
        some ⟨w.nextTimer + i, w.now + (3000 + 500 * i), none, .flashOut m⟩) ∧
    (∀ a b c : Nat, w.dom.querySelectorAll "mobile-flash-message" = [a, b, c] →
      flashTimers (w.dom.querySelectorAll "mobile-flash-message") 0 w.nextTimer w.now =
        [⟨w.nextTimer, w.now + 3000, none, .flashOut a⟩,
         ⟨w.nextTimer + 1, w.now + 3500, none, .flashOut b⟩,
         ⟨w.nextTimer + 2, w.now + 4000, none, .flashOut c⟩]) ∧
    (∀ (i j : Nat) (ti tj : Timer),
      (flashTimers (w.dom.querySelectorAll "mobile-flash-message") 0 w.nextTimer w.now)[i]?
        = some ti →
      (flashTimers (w.dom.querySelectorAll "mobile-flash-message") 0 w.nextTimer w.now)[j]?
        = some tj →
      i < j → ti.due < tj.due) ∧
    (∀ (t : Timer) (m : Nat) (w1 : World),
      t.cb = .flashOut m → t.period = none → w1.now ≤ t.due →
        (fireTimer t w1).world.now = t.due ∧
        (fireTimer t w1).world.timers =
          w1.timers.erase t ++ [⟨w1.nextTimer, t.due + 300, none, .flashRemove m⟩] ∧
        (∀ a ∈ (fireTimer t w1).world.dom.doc.animationsOf m,
          a = "mobileFlashOut 0.3s ease-in forwards") ∧
        (fireTimer t w1).world.dom.doc.hasId m = w1.dom.doc.hasId m) ∧
    (∀ (t : Timer) (m : Nat) (w1 : World), t.cb = .flashRemove m → w1.now ≤ t.due →
      (fireTimer t w1).world.now = t.due ∧
      (fireTimer t w1).world.dom.doc.hasId m = false) := by
  refine ⟨(mobileReady_shape w).1, ?_, ?_, ?_, ?_, ?_⟩
  · intro i m h
    rw [flashTimers_getElem _ 0 _ _ i m h]
    have : (0 + i) * 500 = 500 * i := by omega
    rw [this]
  · intro a b c h
    rw [h]
    rfl
  · intro i j ti tj hi hj hij
    rw [flashTimers_due _ _ _ _ _ _ hi, flashTimers_due _ _ _ _ _ _ hj]
    omega
  · intro t m w1 hcb hp hnow
    exact fireTimer_flashOut t m w1 hcb hp hnow
  · intro t m w1 hcb hnow
    exact ⟨(fireTimer_flashRemove t m w1 hcb hnow).1, (fireTimer_flashRemove t m w1 hcb hnow).2.1⟩

/-- C8 on the sample page, loaded at time 0 with three flash messages: the
fade-out timers are due at 3000, 3500 and 4000 ms, and the first one, fired
at 3000 ms, schedules the removal for 3300 ms. -/
theorem flash_stagger_witness :
    (mobileReady (freshPage sampleDoc 375)).world.timers =
      [⟨0, 3000, none, .flashOut 4⟩, ⟨1, 3500, none, .flashOut 5⟩,
       ⟨2, 4000, none, .flashOut 6⟩] ∧
    (fireTimer ⟨0, 3000, none, .flashOut 4⟩ (mobileReady (freshPage sampleDoc 375)).world).world.timers
      = ((mobileReady (freshPage sampleDoc 375)).world.timers.erase
          ⟨0, 3000, none, .flashOut 4⟩) ++ [⟨3, 3000 + 300, none, .flashRemove 4⟩] :=
  ⟨((flash_stagger (freshPage sampleDoc 375)).1).trans
      ((flash_stagger (freshPage sampleDoc 375)).2.2.1 4 5 6 (by decide)),
    ((flash_stagger (freshPage sampleDoc 375)).2.2.2.2.1 ⟨0, 3000, none, .flashOut 4⟩ 4
      (mobileReady (freshPage sampleDoc 375)).world rfl rfl (by decide)).2.1⟩

/-! ## C2: the TTL table -/

/-- C2 (counterexample): for the flash message at index 0 the
specification's `ttlMillis` is 3000, yet on the sample page, loaded at time
0, the only timer due at 3000 ms starts the fade-out: after it has fired the
message is still in the document and its removal is pending for 3300 ms; the
message leaves the document when that timer fires. -/
theorem flash_message_outlives_spec_ttl :
    specTtlMillis .flashMessage 0 = 3000 ∧
    (loadMobile (freshPage sampleDoc 375)).timers =
      [⟨0, 3000, none, .flashOut 4⟩, ⟨1, 3500, none, .flashOut 5⟩,
       ⟨2, 4000, none, .flashOut 6⟩] ∧
    sampleAt3000.now = 3000 ∧
    sampleAt3000.dom.doc.hasId 4 = true ∧
    sampleAt3000.timers =
      [⟨1, 3500, none, .flashOut 5⟩, ⟨2, 4000, none, .flashOut 6⟩,
       ⟨3, 3300, none, .flashRemove 4⟩] ∧
    (fireTimer ⟨3, 3300, none, .flashRemove 4⟩ sampleAt3000).world.dom.doc.hasId 4 = false := by
  decide

/-- C2 (amended): each spawner of main.js that attaches its marker schedules
the marker's removal with the delay of the table (ambient pixel 15000,
key flash 500, mouse trail 1000, touch ripple 800), and that timer, fired at
its due time, takes the marker out of the document. The ambient tick does so
below the cap with its container in the document; the key flash on a page
with a body for a `keydown` event that carries a key; the mouse trail on a
page with a body; the touch ripple on a page with a body for an event with a
first touch point. A `keydown` event without a key, and a `touchstart` event
without a first touch point, end the listener in a `TypeError` with no marker
attached and no timer scheduled. A flash message at index `i` gets a
fade-out timer due `3000 + 500 * i` ms after load; fired at its due time it
keeps the message in the document and schedules the removal 300 ms later, so
the message leaves the document `3300 + 500 * i` ms after load. -/
theorem marker_removal_delays :
    (∀ (m : Bool) (c : Nat) (w : World),
      w.pixelCount < maxPixels m → w.dom.doc.hasId c = true →
        (pixelTick m (some c) w).world.dom.doc.hasId w.nextId = true ∧
        (pixelTick m (some c) w).world.timers =
          w.timers ++ [⟨w.nextTimer, w.now + 15000, none, .removeNode w.nextId⟩]) ∧
    (∀ (w : World) (b : Nat), w.dom.body = some b →
      (∀ e : Event, e.key ≠ none →
        (keyFlash e w).error = none ∧
        (keyFlash e w).world.dom.doc.hasId w.nextId = true ∧
        (keyFlash e w).world.timers =
          w.timers ++ [⟨w.nextTimer, w.now + 500, none, .removeNode w.nextId⟩]) ∧
      ((mouseTrail w).world.dom.doc.hasId w.nextId = true ∧
        (mouseTrail w).world.timers =
          w.timers ++ [⟨w.nextTimer, w.now + 1000, none, .removeNode w.nextId⟩]) ∧
      (∀ e : Event, e.touches ≠ [] →
        (touchRipple e w).world.dom.doc.hasId w.nextId = true ∧
        (touchRipple e w).world.timers =
          w.timers ++ [⟨w.nextTimer, w.now + 800, none, .removeNode w.nextId⟩])) ∧
    (∀ (t : Timer) (x : Nat) (w : World), t.cb = .removeNode x → w.now ≤ t.due →
      (fireTimer t w).world.now = t.due ∧ (fireTimer t w).world.dom.doc.hasId x = false) ∧
    (∀ (w : World) (i m : Nat),
      (w.dom.querySelectorAll "mobile-flash-message")[i]? = some m →
        (⟨w.nextTimer + i, w.now + (3000 + 500 * i), none, .flashOut m⟩ : Timer) ∈
          (mobileReady w).world.timers) ∧
    (∀ (t : Timer) (m : Nat) (w : World),
      t.cb = .flashOut m → t.period = none → w.now ≤ t.due →
        (fireTimer t w).world.dom.doc.hasId m = w.dom.doc.hasId m ∧
        (⟨w.nextTimer, t.due + 300, none, .flashRemove m⟩ : Timer) ∈
          (fireTimer t w).world.timers) ∧
    (∀ (t : Timer) (m : Nat) (w : World), t.cb = .flashRemove m → w.now ≤ t.due →
      (fireTimer t w).world.now = t.due ∧
      (fireTimer t w).world.dom.doc.hasId m = false) ∧
    (∀ (w : World) (e : Event), e.key = none →
      (keyFlash e w).error = some .typeError ∧
      (keyFlash e w).world.dom = w.dom ∧ (keyFlash e w).world.timers = w.timers) ∧
    (∀ (w : World) (e : Event), e.touches = [] →
      (touchRipple e w).error = some .typeError ∧
      (touchRipple e w).world.dom = w.dom ∧ (touchRipple e w).world.timers = w.timers) := by
  refine ⟨?_, ?_, ?_, ?_, ?_, ?_, ?_, ?_⟩
  · intro m c w hlt hc
    unfold pixelTick
    rw [if_pos hlt]
    simp only [World.setTimeout, Dom.appendChild, hc, if_true, Forest.hasId_insertKids,
      World.newElem, Forest.hasId, beq_self_eq_true, Bool.true_or, Bool.true_and, Bool.or_true,
      and_self]
  · intro w b hb
    refine ⟨?_, ?_, ?_⟩
    · intro e he
      unfold keyFlash
      cases hk : e.key with
      | none => exact absurd hk he
      | some k => exact ⟨(spawnOnBody_spec _ 500 w b hb).1, (spawnOnBody_spec _ 500 w b hb).2.2,
          (spawnOnBody_spec _ 500 w b hb).2.1⟩
    · exact ⟨(spawnOnBody_spec _ 1000 w b hb).2.2, (spawnOnBody_spec _ 1000 w b hb).2.1⟩
    · intro e he
      unfold touchRipple
      cases ht : e.touches with
      | nil => exact absurd ht he
      | cons p ps =>
        exact ⟨(spawnOnBody_spec _ 800 w b hb).2.2, (spawnOnBody_spec _ 800 w b hb).2.1⟩
  · intro t x w hcb hnow
    exact ⟨(fireTimer_removeNode t x w hcb hnow).1, (fireTimer_removeNode t x w hcb hnow).2.1⟩
  · intro w i m h
    rw [(mobileReady_shape w).1]
    apply List.mem_append_right
    have hget := flashTimers_getElem _ 0 w.nextTimer w.now i m h
    have h2 : (0 + i) * 500 = 500 * i := by omega
    rw [h2] at hget
    exact List.mem_iff_getElem?.2 ⟨i, hget⟩
  · intro t m w hcb hp hnow
    obtain ⟨-, h2, -, h4⟩ := fireTimer_flashOut t m w hcb hp hnow
    refine ⟨h4, ?_⟩
    rw [h2]
    exact List.mem_append_right _ (List.mem_singleton.2 rfl)
  · intro t m w hcb hnow
    exact ⟨(fireTimer_flashRemove t m w hcb hnow).1, (fireTimer_flashRemove t m w hcb hnow).2.1⟩
  · intro w e he
    unfold keyFlash
    rw [he]
    exact ⟨rfl, rfl, rfl⟩
  · intro w e he
    unfold touchRipple
    rw [he]
    exact ⟨rfl, rfl, rfl⟩

/-- C2 (amended) on the sample page: pressing the key `a` at time 0 attaches
element 100 and schedules its removal for 500 ms, and that timer detaches it;
a `keydown` event without a key ends in a `TypeError` and schedules
nothing. -/
theorem marker_removal_delays_witness :
    (keyFlash (keyDownOf "a") (freshPage sampleDoc 1024)).world.dom.doc.hasId 100 = true ∧
    (keyFlash (keyDownOf "a") (freshPage sampleDoc 1024)).world.timers =
      [] ++ [⟨0, 0 + 500, none, .removeNode 100⟩] ∧
    (fireTimer ⟨0, 500, none, .removeNode 100⟩
      (keyFlash (keyDownOf "a") (freshPage sampleDoc 1024)).world).world.dom.doc.hasId 100
        = false ∧
    (keyFlash keyDownNoKey (freshPage sampleDoc 1024)).error = some .typeError ∧
    (keyFlash keyDownNoKey (freshPage sampleDoc 1024)).world.timers = [] :=
  ⟨((marker_removal_delays.2.1 (freshPage sampleDoc 1024) 2 (by decide)).1
      (keyDownOf "a") (by decide)).2.1,
    ((marker_removal_delays.2.1 (freshPage sampleDoc 1024) 2 (by decide)).1
      (keyDownOf "a") (by decide)).2.2,
    (marker_removal_delays.2.2.1 ⟨0, 500, none, .removeNode 100⟩ 100
      (keyFlash (keyDownOf "a") (freshPage sampleDoc 1024)).world rfl (by decide)).2,
    (marker_removal_delays.2.2.2.2.2.2.1 (freshPage sampleDoc 1024) keyDownNoKey rfl).1,
    (marker_removal_delays.2.2.2.2.2.2.1 (freshPage sampleDoc 1024) keyDownNoKey rfl).2.2⟩

/-! ## Lemmas on the desktop ambient run -/

theorem selectAll_pixelRow (xs : List Nat) :
    (pixelRow xs).selectAll "random-pixel" = xs := by
  induction xs with
  | nil => rfl
  | cons x xs ih =>
    have hmem : "random-pixel" ∈ ["pixel", "random-pixel"] := by decide
    simp only [pixelRow, Forest.selectAll, ih, if_pos hmem]
    rfl

theorem hasId_pixelRow (x : Nat) (xs : List Nat) :
    (pixelRow xs).hasId x = true ↔ x ∈ xs := by
  induction xs with
  | nil => simp [pixelRow, Forest.hasId]
  | cons y ys ih =>
    simp only [pixelRow, Forest.hasId, Bool.or_eq_true, beq_iff_eq, ih, List.mem_cons,
      Bool.or_false]
    constructor
    · rintro (h | h)
      · exact Or.inl h.symm
      · exact Or.inr h
    · rintro (h | h)
      · exact Or.inl h.symm
      · exact Or.inr h

theorem pixelRow_append (xs ys : List Nat) :
    pixelRow (xs ++ ys) = (pixelRow xs).append (pixelRow ys) := by
  induction xs with
  | nil => rfl
  | cons x xs ih => simp [pixelRow, Forest.append, ih]

theorem erase_pixelRow_of_not_mem (x : Nat) (xs : List Nat) (h : x ∉ xs) :
    (pixelRow xs).erase x = pixelRow xs := by
  apply Forest.erase_of_not_hasId
  rw [Bool.eq_false_iff, ne_eq, hasId_pixelRow]
  exact h

theorem erase_pixelRow_head (x : Nat) (xs : List Nat) (h : x ∉ xs) :
    (pixelRow (x :: xs)).erase x = pixelRow xs := by
  simp only [pixelRow, Forest.erase, if_true]
  exact erase_pixelRow_of_not_mem x xs h

namespace Forest

theorem insertKids_nil (p : Nat) (f : Forest) : insertKids p f nil = f := by
  induction f with
  | nil => rfl
  | cons e k s ihk ihs =>
    simp only [insertKids, append_nil, ihk, ihs]
    split
    · rfl
    · split <;> rfl

theorem insertKids_insertKids (p : Nat) (f a b : Forest) :
    insertKids p (insertKids p f a) b = insertKids p f (append a b) := by
  induction f with
  | nil => rfl
  | cons e k s ihk ihs =>
    by_cases he : e.id = p
    · simp [insertKids, he, append_assoc]
    · by_cases hk : hasId p k = true
      · have hk2 : hasId p (insertKids p k a) = true := by
          rw [hasId_insertKids, hk]
          rfl
        simp [insertKids, he, hk, hk2, ihk]
      · have hk1 : hasId p k = false := by simpa using hk
        simp [insertKids, he, hk1, ihs]

theorem erase_insertKids (x p : Nat) (f n : Forest) (hx : hasId x f = false) :
    erase x (insertKids p f n) = insertKids p f (erase x n) := by
  induction f with
  | nil => rfl
  | cons e k s ihk ihs =>
    simp only [hasId, Bool.or_eq_false_iff, beq_eq_false_iff_ne, ne_eq] at hx
    obtain ⟨⟨hex, hxk⟩, hxs⟩ := hx
    by_cases he : e.id = p
    · simp [insertKids, he, erase, erase_append, erase_of_not_hasId x k hxk,
        erase_of_not_hasId x s hxs]
      intro h
      exact absurd (he ▸ h) hex
    · by_cases hk : hasId p k = true
      · simp [insertKids, he, hk, erase, hex, ihk hxk, erase_of_not_hasId x s hxs]
      · have hk1 : hasId p k = false := by simpa using hk
        simp [insertKids, he, hk1, erase, hex, ihs hxs, erase_of_not_hasId x k hxk]

end Forest

theorem ambientAt_count {doc0 : Forest} {c t0 n0 tid0 lo n : Nat} {w : World}
    (h : AmbientAt doc0 c t0 n0 tid0 lo n w) (hc : doc0.hasId c = true)
    (hzero : (doc0.selectAll "random-pixel").length = 0) : w.pixelCount = n := by
  obtain ⟨-, hd, -⟩ := h
  unfold World.pixelCount Dom.querySelectorAll
  rw [hd, Forest.selectAll_insertKids_length _ _ _ _ hc, hzero, selectAll_pixelRow]
  simp

theorem ambientAt_tick {doc0 : Forest} {c t0 n0 tid0 lo n : Nat} {w : World}
    (h : AmbientAt doc0 c t0 n0 tid0 lo n w) (hc : doc0.hasId c = true)
    (hzero : (doc0.selectAll "random-pixel").length = 0) (hn : n ≤ 15) :
    AmbientAt doc0 c t0 n0 tid0 lo (n + 1)
      (fireTimer (tickTimer c t0 tid0 (lo + n)) w).world := by
  have hcount := ambientAt_count h hc hzero
  obtain ⟨ht, hd, hid, htid, hnow, hnow2⟩ := h
  have hlt : w.pixelCount < maxPixels false := by
    rw [hcount]
    show n < 20
    omega
  have hfire : (fireTimer (tickTimer c t0 tid0 (lo + n)) w).world =
      { w with
        now := t0 + 1000 * (lo + n + 1)
        timers := (tickTimer c t0 tid0 (lo + n + 1) ::
          (List.range' lo n).map (removalTimer t0 n0 tid0)) ++
            [⟨w.nextTimer, t0 + 1000 * (lo + n + 1) + 15000, none, .removeNode w.nextId⟩]
        nextTimer := w.nextTimer + 1
        nextId := w.nextId + 1
        dom := w.dom.appendChild c (w.newElem "div" ["pixel", "random-pixel"] "") } := by
    unfold fireTimer
    simp only [tickTimer, runCallback, pixelTick]
    rw [if_pos (by exact hlt)]
    simp only [World.setTimeout, ht, tickTimer, List.replace_cons_self, Nat.max_eq_right hnow,
      World.newElem]
    have harith : t0 + 1000 * (lo + n + 1) + 1000 = t0 + 1000 * (lo + n + 1 + 1) := by omega
    rw [harith]
  rw [hfire]
  have hdoc : (w.dom.appendChild c (w.newElem "div" ["pixel", "random-pixel"] "")).doc =
      doc0.insertKids c (pixelRow ((List.range' lo (n + 1)).map (fun j => n0 + j))) := by
    unfold Dom.appendChild
    have hcin : w.dom.doc.hasId c = true := by
      rw [hd, Forest.hasId_insertKids, hc]
      rfl
    rw [if_pos hcin]
    simp only [hd, Forest.insertKids_insertKids, World.newElem, hid]
    rw [List.range'_concat, List.map_append, pixelRow_append]
    simp [pixelRow]
  refine ⟨?_, hdoc, ?_, ?_, ?_, ?_⟩
  · simp only [htid, hid]
    rw [List.range'_concat, List.map_append]
    simp [removalTimer, tickTimer]
    omega
  · simp only [hid]
    omega
  · simp only [htid]
    omega
  · simp only
    omega
  · intro _
    simp only
    omega

theorem ambientAt_remove {doc0 : Forest} {c t0 n0 tid0 lo n : Nat} {w : World}
    (h : AmbientAt doc0 c t0 n0 tid0 lo (n + 1) w) (hc : doc0.hasId c = true)
    (hfresh : ∀ i ∈ doc0.ids, i < n0) (hdue : 14 ≤ n) :
    AmbientAt doc0 c t0 n0 tid0 (lo + 1) n
      (fireTimer (removalTimer t0 n0 tid0 lo) w).world := by
  obtain ⟨ht, hd, hid, htid, hnow, hnow2⟩ := h
  rw [List.range'_succ] at ht hd
  have hnow3 : w.now ≤ t0 + 1000 * (lo + 1) + 15000 := hnow2 (by omega)
  have hne : ¬ ((tickTimer c t0 tid0 (lo + (n + 1))) == (removalTimer t0 n0 tid0 lo)) = true := by
    simp [removalTimer, tickTimer]
  have hxdoc0 : doc0.hasId (n0 + lo) = false := by
    rw [Bool.eq_false_iff, ne_eq, Forest.hasId_iff_mem_ids]
    intro hmem
    have := hfresh _ hmem
    omega
  have hxrest : n0 + lo ∉ (List.range' (lo + 1) n).map (fun j => n0 + j) := by
    simp only [List.mem_map, List.mem_range'_1, not_exists, not_and]
    intro j hj
    omega
  have hxin : w.dom.doc.hasId (n0 + lo) = true := by
    rw [hd, Forest.hasId_insertKids, hc]
    simp [pixelRow, Forest.hasId]
  have hfire : (fireTimer (removalTimer t0 n0 tid0 lo) w).world =
      { w with
        now := t0 + 1000 * (lo + 1) + 15000
        timers := tickTimer c t0 tid0 (lo + (n + 1)) ::
          (List.range' (lo + 1) n).map (removalTimer t0 n0 tid0)
        dom := w.dom.removeIfAttached (n0 + lo) } := by
    unfold fireTimer
    have hp : (removalTimer t0 n0 tid0 lo).period = none := rfl
    have hcb : (removalTimer t0 n0 tid0 lo).cb = .removeNode (n0 + lo) := rfl
    have hdue2 : (removalTimer t0 n0 tid0 lo).due = t0 + 1000 * (lo + 1) + 15000 := rfl
    rw [hp, hcb, hdue2]
    have herase : (tickTimer c t0 tid0 (lo + (n + 1)) :: removalTimer t0 n0 tid0 lo ::
        (List.range' (lo + 1) n).map (removalTimer t0 n0 tid0)).erase (removalTimer t0 n0 tid0 lo)
        = tickTimer c t0 tid0 (lo + (n + 1)) ::
          (List.range' (lo + 1) n).map (removalTimer t0 n0 tid0) := by
      rw [List.erase_cons_tail hne, List.erase_cons_head]
    simp only [runCallback, removeNode, ht, List.map_cons, herase, Nat.max_eq_right hnow3]
  rw [hfire]
  have hdoc : (w.dom.removeIfAttached (n0 + lo)).doc =
      doc0.insertKids c (pixelRow ((List.range' (lo + 1) n).map (fun j => n0 + j))) := by
    unfold Dom.removeIfAttached Dom.hasParent Dom.removeChild
    simp only [hxin, Bool.true_or, if_true]
    rw [hd, Forest.erase_insertKids _ _ _ _ hxdoc0, List.map_cons, erase_pixelRow_head _ _ hxrest]
  have e1 : lo + (n + 1) = lo + 1 + n := by omega
  refine ⟨?_, hdoc, ?_, ?_, ?_, ?_⟩
  · simp only [e1]
  · simp only [hid]
    omega
  · simp only [htid]
    omega
  · simp only
    omega
  · intro _
    simp only
    omega

theorem removalTimer_due_mono (t0 n0 tid0 i j : Nat) (h : i ≤ j) :
    (removalTimer t0 n0 tid0 i).due ≤ (removalTimer t0 n0 tid0 j).due := by
  simp only [removalTimer]
  omega

/-- The timers that may fire next in a state of the ambient run: the tick,
when at most 15 pixels are live, or the removal of the oldest pixel, when at
least 15 are. -/
theorem ambientAt_least {doc0 : Forest} {c t0 n0 tid0 lo n : Nat} {w : World}
    (h : AmbientAt doc0 c t0 n0 tid0 lo n w) (t : Timer) (ht : t ∈ w.timers)
    (hmin : ∀ u ∈ w.timers, t.due ≤ u.due) :
    (t = tickTimer c t0 tid0 (lo + n) ∧ n ≤ 15) ∨
      (∃ k, n = k + 1 ∧ t = removalTimer t0 n0 tid0 lo ∧ 14 ≤ k) := by
  obtain ⟨htm, -⟩ := h
  rw [htm] at ht hmin
  simp only [List.mem_cons, List.mem_map, List.mem_range'_1] at ht
  rcases ht with rfl | ⟨j, ⟨hj1, hj2⟩, rfl⟩
  · left
    refine ⟨rfl, ?_⟩
    by_contra hcon
    have hmem : removalTimer t0 n0 tid0 lo ∈ tickTimer c t0 tid0 (lo + n) ::
        (List.range' lo n).map (removalTimer t0 n0 tid0) := by
      apply List.mem_cons_of_mem
      simp only [List.mem_map, List.mem_range'_1]
      exact ⟨lo, ⟨le_refl _, by omega⟩, rfl⟩
    have := hmin _ hmem
    simp only [tickTimer, removalTimer] at this
    omega
  · right
    have hpos : 0 < n := by omega
    obtain ⟨k, rfl⟩ : ∃ k, n = k + 1 := ⟨n - 1, by omega⟩
    have hlo : removalTimer t0 n0 tid0 lo ∈ tickTimer c t0 tid0 (lo + (k + 1)) ::
        (List.range' lo (k + 1)).map (removalTimer t0 n0 tid0) := by
      apply List.mem_cons_of_mem
      simp only [List.mem_map, List.mem_range'_1]
      exact ⟨lo, ⟨le_refl _, by omega⟩, rfl⟩
    have h1 := hmin _ hlo
    have h2 := hmin _ (List.mem_cons_self _ _)
    simp only [tickTimer, removalTimer] at h1 h2
    have hjlo : j = lo := by omega
    subst hjlo
    exact ⟨k, rfl, rfl, by omega⟩

theorem ambientInv_step {doc0 : Forest} {c t0 n0 tid0 : Nat} {w w2 : World}
    (hc : doc0.hasId c = true) (hzero : (doc0.selectAll "random-pixel").length = 0)
    (hfresh : ∀ i ∈ doc0.ids, i < n0)
    (h : AmbientInv doc0 c t0 n0 tid0 w) (hstep : IdealFires w w2) :
    AmbientInv doc0 c t0 n0 tid0 w2 := by
  obtain ⟨lo, n, hn, hat⟩ := h
  obtain ⟨t, ht, hmin, rfl⟩ := hstep
  rcases ambientAt_least hat t ht hmin with ⟨rfl, hn15⟩ | ⟨k, rfl, rfl, hk⟩
  · exact ⟨lo, n + 1, by omega, ambientAt_tick hat hc hzero hn15⟩
  · exact ⟨lo + 1, k, by omega, ambientAt_remove hat hc hfresh hk⟩

theorem ambientInv_progress {doc0 : Forest} {c t0 n0 tid0 : Nat} {w : World}
    (h : AmbientInv doc0 c t0 n0 tid0 w) : ∃ w2, IdealFires w w2 := by
  obtain ⟨lo, n, hn, hat⟩ := h
  have htm := hat.1
  by_cases hn15 : n ≤ 15
  · refine ⟨_, tickTimer c t0 tid0 (lo + n), by rw [htm]; exact List.mem_cons_self _ _, ?_, rfl⟩
    intro u hu
    rw [htm] at hu
    simp only [List.mem_cons, List.mem_map, List.mem_range'_1] at hu
    rcases hu with rfl | ⟨j, ⟨hj1, hj2⟩, rfl⟩
    · exact le_refl _
    · simp only [tickTimer, removalTimer]
      omega
  · have hmem : removalTimer t0 n0 tid0 lo ∈ w.timers := by
      rw [htm]
      apply List.mem_cons_of_mem
      simp only [List.mem_map, List.mem_range'_1]
      exact ⟨lo, ⟨le_refl _, by omega⟩, rfl⟩
    refine ⟨_, removalTimer t0 n0 tid0 lo, hmem, ?_, rfl⟩
    intro u hu
    rw [htm] at hu
    simp only [List.mem_cons, List.mem_map, List.mem_range'_1] at hu
    rcases hu with rfl | ⟨j, ⟨hj1, hj2⟩, rfl⟩
    · simp only [tickTimer, removalTimer]
      omega
    · exact removalTimer_due_mono _ _ _ _ _ hj1

theorem ambientInv_init (w : World) (c : Nat) (hwide : 768 < w.innerWidth)
    (htimers : w.timers = []) (hcont : w.dom.querySelector "floating-pixels" = some c) :
    AmbientInv w.dom.doc c w.now w.nextId w.nextTimer (mainReady w).world := by
  refine ⟨0, 0, by omega, ?_⟩
  have hnw : ¬ w.innerWidth ≤ 768 := by omega
  unfold mainReady
  simp only [hnw, decide_False, Bool.not_false, if_true, createRandomPixels, World.addListener,
    World.setInterval, hcont, htimers, List.nil_append]
  refine ⟨rfl, ?_, rfl, rfl, ?_, ?_⟩
  · simp only [List.range'_zero, List.map_nil, pixelRow, Forest.insertKids_nil]
  · simp only
    omega
  · intro h
    exact absurd h (by omega)

/-! ## C10: the desktop cap is never binding -/

/-- C10: on a desktop page (viewport wider than 768 px) with a
`.floating-pixels` container, no `.random-pixel` element and no other timer,
where timers fire exactly at their due times (a timer with the least due time
fires next, either one when a tick and a removal are due at the same
instant), every state reached after `DOMContentLoaded` holds at most 16 live
`.random-pixel` elements; whenever the tick is the timer that fires, it is
due `1000 * k` ms after installation for the tick number `k`, it finds fewer
than 20 pixels and it adds exactly one; and some timer can always fire. -/
theorem desktop_cap_never_binding (w : World) (c : Nat)
    (hwide : 768 < w.innerWidth) (htimers : w.timers = [])
    (hcont : w.dom.querySelector "floating-pixels" = some c)
    (hempty : w.pixelCount = 0)
    (hfresh : ∀ i ∈ w.dom.doc.ids, i < w.nextId) :
    ∀ w1 : World, Relation.ReflTransGen IdealFires (mainReady w).world w1 →
      w1.pixelCount ≤ 16 ∧
      (∀ t ∈ w1.timers, (∀ u ∈ w1.timers, t.due ≤ u.due) →
        (∃ m c1, t.cb = .pixelTick m c1) →
          t.due = w.now + 1000 * (w1.nextId - w.nextId + 1) ∧
          w1.pixelCount < maxPixels false ∧
          (fireTimer t w1).world.pixelCount = w1.pixelCount + 1) ∧
      ∃ w2 : World, IdealFires w1 w2 := by
  have hc : w.dom.doc.hasId c = true := by
    apply Forest.mem_selectAll_hasId "floating-pixels"
    unfold Dom.querySelector at hcont
    exact List.mem_of_mem_head? hcont
  have hzero : (w.dom.doc.selectAll "random-pixel").length = 0 := hempty
  intro w1 hreach
  have hinv : AmbientInv w.dom.doc c w.now w.nextId w.nextTimer w1 := by
    induction hreach with
    | refl => exact ambientInv_init w c hwide htimers hcont
    | tail _ hstep ih => exact ambientInv_step hc hzero hfresh ih hstep
  refine ⟨?_, ?_, ambientInv_progress hinv⟩
  · obtain ⟨lo, n, hn, hat⟩ := hinv
    rw [ambientAt_count hat hc hzero]
    exact hn
  · intro t ht hmin htick
    obtain ⟨lo, n, hn, hat⟩ := hinv
    have hcount := ambientAt_count hat hc hzero
    rcases ambientAt_least hat t ht hmin with ⟨rfl, hn15⟩ | ⟨k, rfl, rfl, hk⟩
    · have hnext := ambientAt_tick hat hc hzero hn15
      refine ⟨?_, ?_, ?_⟩
      · rw [hat.2.2.1]
        simp only [tickTimer]
        have : w.nextId + (lo + n) - w.nextId = lo + n := by omega
        rw [this]
      · rw [hcount]
        show n < 20
        omega
      · rw [ambientAt_count hnext hc hzero, hcount]
    · obtain ⟨m, c1, hcb⟩ := htick
      simp [removalTimer] at hcb

/-- C10 on the sample desktop page: right after `DOMContentLoaded` at most 16
pixels are live and a timer can fire. -/
theorem desktop_cap_never_binding_witness :
    (mainReady (freshPage sampleDoc 1024)).world.pixelCount ≤ 16 ∧
    ∃ w2 : World, IdealFires (mainReady (freshPage sampleDoc 1024)).world w2 :=
  ⟨(desktop_cap_never_binding (freshPage sampleDoc 1024) 3 (by decide) rfl (by decide)
      (by decide) (by decide) _ Relation.ReflTransGen.refl).1,
    (desktop_cap_never_binding (freshPage sampleDoc 1024) 3 (by decide) rfl (by decide)
      (by decide) (by decide) _ Relation.ReflTransGen.refl).2.2⟩

end LaOpen
